import Mathlib

/-!
Verification of the chaquopy stub-generator core
(`chaquopy_stubgen/_stubgen/{types,pysafe,sig_parser,class_stub,main}.py`).

The Python data model and operations are embedded shallowly: dataclasses
become structures, dict/set state becomes association lists or predicate
functions, loops become fueled recursion (the fuel models the finitely many
iterations the Python loops perform; every claim's statement either holds
for all fuel values or is evaluated at a concrete, sufficient fuel), and
code that can raise returns `Option`/`Except`.
-/

/-! ## Data model (`types.py`) -/

/-- `TypeStr` from `types.py`: a dotted name plus optional type arguments.
`type_args : list | None = None` is kept as `Option (List TypeStr)` because
Python's dataclass equality distinguishes `None` from `[]`. -/
structure TypeStr where
  name : String
  typeArgs : Option (List TypeStr) := none

/-- `TypeVarStr` from `types.py`. -/
structure TypeVarStr where
  javaName : String
  pythonName : String
  bound : Option TypeStr := none

/-- `ArgSig` from `types.py`. -/
structure ArgSig where
  name : String
  argType : Option TypeStr := none
  varArgs : Bool := false

/-- `JavaFunctionSig` from `types.py`. -/
structure JavaFunctionSig where
  name : String
  static : Bool
  args : List ArgSig
  retType : TypeStr
  typeVars : List TypeVarStr

/-- `Primitive` from `types.py`. -/
structure Primitive where
  javaPrimitive : String
  javaObject : String
  pythonPrimitive : String
  pythonType : String
deriving DecidableEq, Repr

/-- `PRIMITIVES` from `types.py`. -/
def PRIMITIVES : List Primitive := [
  Primitive.mk "void" "java.lang.Void" "java.jvoid" "None",
  Primitive.mk "byte" "java.lang.Byte" "java.jbyte" "int",
  Primitive.mk "short" "java.lang.Short" "java.jshort" "int",
  Primitive.mk "int" "java.lang.Integer" "java.jint" "int",
  Primitive.mk "long" "java.lang.Long" "java.jlong" "int",
  Primitive.mk "boolean" "java.lang.Boolean" "java.jboolean" "bool",
  Primitive.mk "double" "java.lang.Double" "java.jdouble" "float",
  Primitive.mk "float" "java.lang.Float" "java.jfloat" "float",
  Primitive.mk "char" "java.lang.Character" "java.jchar" "str"]

/-- Lookup in `TYPE_NAME_TO_PRIMITIVE_MAP` from `types.py` (keys are both the
Java primitive names and the boxed names; the two key sets are disjoint). -/
def typeNameToPrimitive (n : String) : Option Primitive :=
  PRIMITIVES.find? (fun p => p.javaPrimitive = n || p.javaObject = n)

/-- Lookup in `PARAMETER_TO_ARRAY_TYPE_MAP` from `types.py`. -/
def parameterToArrayType (n : String) : Option String :=
  ([("java.jboolean", "java.chaquopy.JavaArrayJBoolean"),
    ("java.jbyte", "java.chaquopy.JavaArrayJByte"),
    ("java.jshort", "java.chaquopy.JavaArrayJShort"),
    ("java.jint", "java.chaquopy.JavaArrayJInt"),
    ("java.jlong", "java.chaquopy.JavaArrayJLong"),
    ("java.jfloat", "java.chaquopy.JavaArrayJFloat"),
    ("java.jdouble", "java.chaquopy.JavaArrayJDouble"),
    ("java.jchar", "java.chaquopy.JavaArrayJChar")].find?
      (fun kv => kv.1 = n)).map (fun kv => kv.2)

/-- The values of `PARAMETER_TO_ARRAY_TYPE_MAP` (used by the varargs unwrap). -/
def parameterToArrayTypeValues : List String :=
  ["java.chaquopy.JavaArrayJBoolean", "java.chaquopy.JavaArrayJByte",
   "java.chaquopy.JavaArrayJShort", "java.chaquopy.JavaArrayJInt",
   "java.chaquopy.JavaArrayJLong", "java.chaquopy.JavaArrayJFloat",
   "java.chaquopy.JavaArrayJDouble", "java.chaquopy.JavaArrayJChar"]

/-- ASM access-flag constants from `types.py`. -/
def ACC_PUBLIC : Nat := 0x0001
def ACC_PROTECTED : Nat := 0x0004
def ACC_STATIC : Nat := 0x0008
def ACC_SYNTHETIC : Nat := 0x1000
def ACC_BRIDGE : Nat := 0x0040
def ACC_VARARGS : Nat := 0x0080

/-! ## String helpers

Python string operations (`split`, `join`, `replace`, `rpartition`, `in`)
are embedded as structurally recursive functions on `String.data` so that
every definition reduces in the kernel. -/

/-- Split a list of characters at every occurrence of `sep`
(Python `str.split(sep)` for a one-character separator). -/
def splitCharAux (sep : Char) : List Char → List Char → List (List Char)
  | [], acc => [acc.reverse]
  | c :: cs, acc =>
    if c = sep then acc.reverse :: splitCharAux sep cs []
    else splitCharAux sep cs (c :: acc)

/-- Python `s.split(sep)` for a one-character separator. -/
def splitOnChar (sep : Char) (s : String) : List String :=
  (splitCharAux sep s.data []).map String.mk

/-- Python `sep.join(parts)`. -/
def joinSep (sep : String) : List String → String
  | [] => ""
  | [x] => x
  | x :: xs => x ++ sep ++ joinSep sep xs

/-- Concatenation of a list of strings (`"".join`). -/
def joinAll (l : List String) : String := l.foldr (fun a b => a ++ b) ""

/-- Python `s.replace(old, new)` for one-character `old`/`new`. -/
def replaceChar (old new : Char) (s : String) : String :=
  String.mk (s.data.map (fun c => if c = old then new else c))

/-- `_internal_to_dotted_raw` from `sig_parser.py`: replace `/` with `.`,
keeping `$` for later processing. -/
def internalToDottedRaw (s : String) : String := replaceChar '/' '.' s

/-- Python `"." in s`. -/
def hasDot (s : String) : Bool := s.data.contains '.'

/-- Python `s.rpartition(".")`, returning (text before the last dot, text
after it); with no dot present the pair is `("", s)`. -/
def rpartitionDot (s : String) : String × String :=
  let parts := splitOnChar '.' s
  (joinSep "." parts.dropLast, parts.getLastD s)

/-- Python `list.insert(i, x)` (appends when `i` is past the end). -/
def insertAt (l : List α) (i : Nat) (x : α) : List α :=
  l.take i ++ x :: l.drop i

/-- Split at the first character satisfying `p`, returning the characters
before it and the rest starting with it (models Python `str.index` scans). -/
def takeUntil (p : Char → Bool) : List Char → List Char × List Char
  | [] => ([], [])
  | c :: cs =>
    if p c then ([], c :: cs)
    else
      let r := takeUntil p cs
      (c :: r.1, r.2)

/-- Python `suffix-test`: `s.endswith(t)`. -/
def strEndsWith (s t : String) : Bool := t.data.isSuffixOf s.data

/-- Python `s.startswith(t)`. -/
def strStartsWith (s t : String) : Bool := t.data.isPrefixOf s.data

/-- Python `s.removesuffix(t)`. -/
def removesuffix (s t : String) : String :=
  if strEndsWith s t then String.mk (s.data.take (s.data.length - t.data.length))
  else s

/-! ## Name mangling (`pysafe.py`) -/

/-- Python 3 `keyword.kwlist`. -/
def pythonKeywords : List String :=
  ["False", "None", "True", "and", "as", "assert", "async", "await",
   "break", "class", "continue", "def", "del", "elif", "else", "except",
   "finally", "for", "from", "global", "if", "import", "in", "is",
   "lambda", "nonlocal", "not", "or", "pass", "raise", "return", "try",
   "while", "with", "yield"]

/-- `EXTRA_RESERVED_WORDS` from `pysafe.py`. -/
def EXTRA_RESERVED_WORDS : List String := ["exec", "print"]

/-- `is_reserved_word` from `pysafe.py`. -/
def isReservedWord (w : String) : Bool :=
  pythonKeywords.contains w || EXTRA_RESERVED_WORDS.contains w

/-- `pysafe` from `pysafe.py`: `none` models the Python `None` return for
dunder names; reserved words get a trailing underscore. -/
def pysafe (s : String) : Option String :=
  if s.data.take 2 = ['_', '_'] ∧ s.data.reverse.take 2 = ['_', '_'] ∧ 4 ≤ s.data.length
  then none
  else if isReservedWord s then some (s ++ "_")
  else some s

/-- `pysafe_package_path` from `pysafe.py`. -/
def pysafePackagePath (packagePath : String) : String :=
  joinSep "." ((splitOnChar '.' packagePath).map (fun p => (pysafe p).getD ""))

/-! ## Text rendering (`pysafe.py`, `to_annotated_type`)

`to_annotated_type` mutates `types_used` (write-only) and `imports_output`
(write-only): neither feeds back into the produced text, so the embedding
keeps only the pure result, a function of the `TypeStr` tree, the package
name, `classes_done` and `can_be_deferred`.  Recursion over the nested
`TypeStr` tree is by fuel so the definition reduces in the kernel. -/

def toAnnotatedType : Nat → String → List String → Bool → TypeStr → String
  | 0, _, _, _, _ => ""
  | fuel + 1, packageName, classesDone, canBeDeferred, t =>
    let aType := t.name
    let aType :=
      if hasDot aType ∧ aType ≠ "typing.Union" then
        let m := pysafePackagePath aType
        let pl := rpartitionDot m
        if pl.1 = "builtins" then pl.2
        else if pl.1 = pysafePackagePath packageName then
          if pl.2 ∈ classesDone then pl.2
          else if canBeDeferred then pl.2
          else m
        else m
      else aType
    let aType := replaceChar '$' '.' aType
    let argsTruthy : Bool := match t.typeArgs with | some (_ :: _) => true | _ => false
    if argsTruthy ∨ aType = "" then
      let args := (t.typeArgs.getD []).map
        (toAnnotatedType fuel packageName classesDone true)
      if aType = "typing.Union" then joinSep " | " args
      else aType ++ "[" ++ joinSep ", " args ++ "]"
    else aType

/-- A single-quote character, built from its code point to keep the source
free of quote characters inside string literals. -/
def sQuote : String := String.singleton (Char.ofNat 39)

/-- `to_type_var_declaration` from `pysafe.py` (again with the write-only
`imports_output` effect dropped). -/
def toTypeVarDeclaration (fuel : Nat) (packageName : String)
    (classesDone : List String) (tv : TypeVarStr) : String :=
  match tv.bound with
  | some b =>
    tv.pythonName ++ " = typing.TypeVar(" ++ sQuote ++ tv.pythonName ++ sQuote ++
      ", bound=" ++ toAnnotatedType fuel packageName classesDone true b ++
      ")  # <" ++ tv.javaName ++ ">"
  | none =>
    tv.pythonName ++ " = typing.TypeVar(" ++ sQuote ++ tv.pythonName ++ sQuote ++
      ")  # <" ++ tv.javaName ++ ">"

/-! ## Name translation (`sig_parser.py`, `translate_type_name`) -/

/-- The `java.lang.String` block of `translate_type_name`. -/
def unionStringPart (typeName : String) (isArgument isArrayParam isTypeArg : Bool) :
    List TypeStr :=
  if typeName = "java.lang.String" then
    if isArrayParam || isTypeArg then [TypeStr.mk "java.lang.String" none]
    else TypeStr.mk "str" none ::
      (if isArgument then [TypeStr.mk "java.lang.String" none] else [])
  else []

/-- The `java.lang.Class` block of `translate_type_name`. -/
def unionClassPart (typeName : String) (typeArgs : Option (List TypeStr)) :
    List TypeStr :=
  if typeName = "java.lang.Class" then [TypeStr.mk "typing.Type" typeArgs] else []

/-- The `java.lang.Object` block of `translate_type_name`. -/
def unionObjectPart (typeName : String) (isArgument : Bool) : List TypeStr :=
  if typeName = "java.lang.Object" then
    TypeStr.mk "java.lang.Object" none ::
      (if isArgument then
        [TypeStr.mk "int" none, TypeStr.mk "bool" none,
         TypeStr.mk "float" none, TypeStr.mk "str" none]
      else [])
  else []

/-- The `union` list built by `translate_type_name` in source order;
`none` models the `ValueError` raised when a primitive (or boxed) type is
flagged as both an array parameter and an argument. -/
def collectImplicitUnion (typeName : String) (typeArgs : Option (List TypeStr))
    (isArgument isArrayParam isTypeArg : Bool) : Option (List TypeStr) :=
  let tailParts :=
    unionStringPart typeName isArgument isArrayParam isTypeArg ++
    unionClassPart typeName typeArgs ++
    unionObjectPart typeName isArgument
  match typeNameToPrimitive typeName with
  | some p =>
    if isArrayParam && isArgument then none
    else
      let u :=
        if isArrayParam then [TypeStr.mk p.pythonPrimitive none]
        else if isTypeArg then [TypeStr.mk p.javaObject none]
        else [TypeStr.mk p.pythonType none]
      let u := if isArgument then
          u ++ [TypeStr.mk p.pythonPrimitive none, TypeStr.mk p.javaObject none]
        else u
      some (u ++ tailParts)
  | none => some tailParts

/-- `translate_type_name` from `sig_parser.py`; `none` models the raised
`ValueError`. -/
def translateTypeName (typeName : String) (typeArgs : Option (List TypeStr))
    (isArgument isArrayParam isTypeArg : Bool) : Option TypeStr :=
  (collectImplicitUnion typeName typeArgs isArgument isArrayParam isTypeArg).map
    (fun union =>
      match union with
      | [u] => TypeStr.mk u.name u.typeArgs
      | _ :: _ :: _ => TypeStr.mk "typing.Union" (some union)
      | [] => TypeStr.mk typeName typeArgs)

/-! ## Signature parsing (`sig_parser.py`)

`_parse_type_signature` walks the signature string by position; the
embedding passes the remaining character list instead of an index, and a
returned `none` models every raised exception (`ValueError`, `IndexError`,
`AssertionError`).  Loops are fueled; recursion is structural on the fuel
so all parsers reduce in the kernel. -/

/-- `PRIMITIVE_DESCS` from `_parse_type_signature`. -/
def primitiveDescName (c : Char) : Option String :=
  if c = 'B' then some "byte"
  else if c = 'C' then some "char"
  else if c = 'D' then some "double"
  else if c = 'F' then some "float"
  else if c = 'I' then some "int"
  else if c = 'J' then some "long"
  else if c = 'S' then some "short"
  else if c = 'V' then some "void"
  else if c = 'Z' then some "boolean"
  else none

/-- The balanced-`<>`-skipping loop inside the inner-class-suffix handling of
`_parse_type_signature` (depth starts at 1 after the opening `<`). -/
def skipBalanced : Nat → List Char → Option (List Char)
  | 0, cs => some cs
  | _ + 1, [] => none
  | depth + 1, c :: rest =>
    if c = '<' then skipBalanced (depth + 2) rest
    else if c = '>' then skipBalanced depth rest
    else skipBalanced (depth + 1) rest

/-- The `while i < len(sig) and sig[i] == "."` inner-class-suffix loop of
`_parse_type_signature`. -/
def skipInnerSuffix : Nat → List Char → Option (List Char)
  | fuel, cs =>
    match cs with
    | c :: rest =>
      if c = '.' then
        match fuel with
        | 0 => none
        | f + 1 =>
          let r1 := (takeUntil (fun ch => ch = '<' || ch = ';' || ch = '.') rest).2
          match r1 with
          | '<' :: r2 =>
            match skipBalanced 1 r2 with
            | none => none
            | some r3 => skipInnerSuffix f r3
          | _ => skipInnerSuffix f r1
      else some cs
    | [] => some cs

/-- A `while sig[i] != stop: parse one element` loop (used for the generic
type-argument list of an object type and for the method parameter list). -/
def parseSeqUntil (parse : List Char → Option (TypeStr × List Char)) (stop : Char) :
    Nat → List Char → List TypeStr → Option (List TypeStr × List Char)
  | _, [], _ => none
  | fuel, c :: rest, acc =>
    if c = stop then some (acc.reverse, rest)
    else
      match fuel with
      | 0 => none
      | f + 1 =>
        match parse (c :: rest) with
        | none => none
        | some (t, r) => parseSeqUntil parse stop f r (t :: acc)

/-- `_parse_type_signature` from `sig_parser.py`. -/
def parseTypeSig : Nat → List TypeVarStr → Bool → Bool → Bool → List Char →
    Option (TypeStr × List Char)
  | 0, _, _, _, _, _ => none
  | fuel + 1, typeVars, isArgument, isArrayParam, isTypeArg, cs =>
    match cs with
    | [] => none
    | c :: rest =>
      match primitiveDescName c with
      | some nm =>
        (translateTypeName nm none isArgument isArrayParam isTypeArg).map
          (fun t => (t, rest))
      | none =>
        if c = '[' then
          match parseTypeSig fuel typeVars false true false rest with
          | none => none
          | some (elem, r) =>
            match parameterToArrayType elem.name with
            | some arrName => some (TypeStr.mk arrName none, r)
            | none => some (TypeStr.mk "java.chaquopy.JavaArray" (some [elem]), r)
        else if c = 'T' then
          let sp := takeUntil (fun ch => ch = ';') rest
          match sp.2 with
          | [] => none
          | _ :: r2 =>
            let varName := String.mk sp.1
            match typeVars.find? (fun tv => tv.javaName == varName) with
            | some tv => some (TypeStr.mk tv.pythonName none, r2)
            | none => some (TypeStr.mk varName none, r2)
        else if c = '*' then some (TypeStr.mk "java.lang.Object" none, rest)
        else if c = '+' ∨ c = '-' then
          parseTypeSig fuel typeVars false false false rest
        else if c = 'L' then
          let sp := takeUntil (fun ch => ch = '<' || ch = ';' || ch = '.') rest
          let className := internalToDottedRaw (String.mk sp.1)
          let argsStep : Option (Option (List TypeStr) × List Char) :=
            match sp.2 with
            | '<' :: r1 =>
              match parseSeqUntil
                  (fun cs2 => parseTypeSig fuel typeVars false false true cs2)
                  '>' fuel r1 [] with
              | none => none
              | some (as1, r2) => some (some as1, r2)
            | r1 => some (none, r1)
          match argsStep with
          | none => none
          | some (typeArgs, r2) =>
            match skipInnerSuffix fuel r2 with
            | none => none
            | some r3 =>
              match r3 with
              | ';' :: r4 =>
                (translateTypeName className typeArgs isArgument isArrayParam
                  isTypeArg).map (fun t => (t, r4))
              | _ => none
        else none

/-- The `while i < len(sig) and sig[i] == ":"` interface-bound-skipping loop
of `parse_class_type_params`: each interface bound is parsed and discarded. -/
def skipIfaceBounds (parse : List Char → Option (TypeStr × List Char)) :
    Nat → List Char → Option (List Char)
  | fuel, cs =>
    match cs with
    | c0 :: rest =>
      if c0 = ':' then
        match fuel with
        | 0 => none
        | f + 1 =>
          match rest with
          | [] => some []
          | c :: _ =>
            if c = ':' ∨ c = '>' then skipIfaceBounds parse f rest
            else
              match parse rest with
              | none => none
              | some (_, r2) => skipIfaceBounds parse f r2
      else some cs
    | [] => some cs

/-- The `while sig[i] != ">"` entry loop of `parse_class_type_params`: read
the entry name up to `:`, optionally parse a class bound (kept only when its
translation is named neither `java.lang.Object` nor `None`), then consume and
discard the interface bounds. -/
def parseParamsLoop (parse : List Char → Option (TypeStr × List Char)) :
    Nat → List Char → List (String × Option TypeStr) →
    Option (List (String × Option TypeStr) × List Char)
  | fuel, cs, acc =>
    match cs with
    | [] => none
    | c0 :: rest0 =>
      if c0 = '>' then some (acc.reverse, rest0)
      else
      match fuel with
      | 0 => none
      | f + 1 =>
      let sp := takeUntil (fun ch => ch = ':') cs
      match sp.2 with
      | [] => none
      | _ :: r2 =>
        let name := String.mk sp.1
        let boundStep : Option (Option TypeStr × List Char) :=
          match r2 with
          | [] => some (none, r2)
          | c :: _ =>
            if c = ':' ∨ c = '>' then some (none, r2)
            else
              match parse r2 with
              | none => none
              | some (rawBound, r3) =>
                let bound :=
                  if rawBound.name = "java.lang.Object" ∨ rawBound.name = "None"
                  then none else some rawBound
                some (bound, r3)
        match boundStep with
        | none => none
        | some (bound, r3) =>
          match skipIfaceBounds parse f r3 with
          | none => none
          | some r4 => parseParamsLoop parse f r4 ((name, bound) :: acc)

/-- `parse_class_type_params` from `sig_parser.py`; the returned character
list is the text after the closing `>` (the Python function returns its
index). -/
def parseClassTypeParams (fuel : Nat) (s : String) :
    Option (List (String × Option TypeStr) × List Char) :=
  match s.data with
  | '<' :: rest =>
    parseParamsLoop (fun cs => parseTypeSig fuel [] false false false cs) fuel rest []
  | _ => some ([], s.data)

/-- `make_type_vars` from `sig_parser.py`. -/
def makeTypeVars (params : List (String × Option TypeStr)) (scopeId : String) :
    List TypeVarStr :=
  params.map (fun p => TypeVarStr.mk p.1 ("_" ++ scopeId ++ "__" ++ p.1) p.2)

/-- `parse_method_signature` from `sig_parser.py`. -/
def parseMethodSignature (fuel : Nat) (gsig : Option String) (desc : String)
    (typeVars : List TypeVarStr) (isConstructor : Bool) (scopeId : String) :
    Option (List TypeVarStr × List TypeStr × TypeStr) :=
  let source := match gsig with
    | some s => if s = "" then desc else s
    | none => desc
  match source.data with
  | [] => none
  | c0 :: _ =>
    let tvStep : Option (List TypeVarStr × List Char) :=
      if c0 = '<' then
        match parseClassTypeParams fuel source with
        | none => none
        | some (rawParams, r) => some (makeTypeVars rawParams scopeId, r)
      else some ([], source.data)
    match tvStep with
    | none => none
    | some (methodTypeVars, rest) =>
      let allTypeVars := methodTypeVars ++ typeVars
      match rest with
      | '(' :: r1 =>
        match parseSeqUntil
            (fun cs2 => parseTypeSig fuel allTypeVars true false false cs2)
            ')' fuel r1 [] with
        | none => none
        | some (paramTypes, r2) =>
          if isConstructor then
            some (methodTypeVars, paramTypes, TypeStr.mk "None" none)
          else
            match parseTypeSig fuel allTypeVars false false false r2 with
            | none => none
            | some (retType, _) => some (methodTypeVars, paramTypes, retType)
      | _ => none

/-! ## Shared association-list helpers

Python `dict` assignment (`d[k] = v`) and lookup with a default are
embedded as association lists with in-place overwrite. -/

/-- `d[k] = v`: overwrite the existing binding of `k` or append a new one. -/
def updateAssoc : List (String × α) → String → α → List (String × α)
  | [], k, v => [(k, v)]
  | kv :: rest, k, v =>
    if kv.1 = k then (k, v) :: rest
    else kv :: updateAssoc rest k v

/-- `d.get(k)` on an association list whose keys are unique. -/
def lookupAssoc (l : List (String × α)) (k : String) : Option α :=
  (l.find? (fun kv => kv.1 == k)).map (fun kv => kv.2)

/-- The value the key has after building a dict from the pair list in order
(later pairs overwrite earlier ones). -/
def lookupLast (l : List (String × α)) (k : String) : Option α :=
  (l.reverse.find? (fun kv => kv.1 == k)).map (fun kv => kv.2)

/-! ## Per-class stub generation (`class_stub.py`) -/

/-- `_method_whitelist_key` from `class_stub.py`. -/
def methodWhitelistKey (classNameDotted methodName : String)
    (paramDescs : List String) : String :=
  classNameDotted ++ "." ++ methodName ++ "(" ++ joinSep ", " paramDescs ++ ")"

/-- `_desc_to_whitelist_type` from `class_stub.py`. -/
def descToWhitelistType : List Char → String
  | ['B'] => "byte"
  | ['C'] => "char"
  | ['D'] => "double"
  | ['F'] => "float"
  | ['I'] => "int"
  | ['J'] => "long"
  | ['S'] => "short"
  | ['V'] => "void"
  | ['Z'] => "boolean"
  | '[' :: rest => descToWhitelistType rest ++ "[]"
  | 'L' :: rest =>
    replaceChar '$' '.' (replaceChar '/' '.'
      (String.mk (rest.reverse.dropWhile (fun c => c = ';')).reverse))
  | cs => String.mk cs

/-- `_parse_descriptor_params_for_whitelist` from `class_stub.py` (the scan
after the opening parenthesis); `none` models the exceptions raised on a
malformed descriptor. -/
def whitelistParamsLoop : Nat → List Char → List String → Option (List String)
  | _, ')' :: _, acc => some acc.reverse
  | _, [], _ => none
  | fuel, cs, acc =>
    match fuel with
    | 0 => none
    | f + 1 =>
      match cs with
      | '[' :: _ =>
        let brackets := cs.takeWhile (fun c => c = '[')
        let afterBrackets := cs.dropWhile (fun c => c = '[')
        match afterBrackets with
        | 'L' :: _ =>
          let sp := takeUntil (fun ch => ch = ';') afterBrackets
          match sp.2 with
          | [] => none
          | _ :: r2 =>
            whitelistParamsLoop f r2
              (descToWhitelistType (brackets ++ sp.1 ++ [';']) :: acc)
        | e :: r2 =>
          whitelistParamsLoop f r2 (descToWhitelistType (brackets ++ [e]) :: acc)
        | [] => none
      | 'L' :: _ =>
        let sp := takeUntil (fun ch => ch = ';') cs
        match sp.2 with
        | [] => none
        | _ :: r2 =>
          whitelistParamsLoop f r2 (descToWhitelistType (sp.1 ++ [';']) :: acc)
      | e :: r2 => whitelistParamsLoop f r2 (descToWhitelistType [e] :: acc)
      | [] => none

/-- `_parse_descriptor_params_for_whitelist` from `class_stub.py`. -/
def parseDescriptorParamsForWhitelist (fuel : Nat) (desc : String) :
    Option (List String) :=
  match desc.data with
  | '(' :: rest => whitelistParamsLoop fuel rest []
  | _ => none

/-- `_count_typevar_uses` from `class_stub.py`: the `counts` dict is a total
function with default `0`, updated functionally. -/
def countTypevarUses : Nat → List String → TypeStr → (String → Nat) → (String → Nat)
  | 0, _, _, counts => counts
  | fuel + 1, tvNames, t, counts =>
    let counts :=
      if t.name ∈ tvNames then
        fun n => if n = t.name then counts n + 1 else counts n
      else counts
    (t.typeArgs.getD []).foldl
      (fun m a => countTypevarUses fuel tvNames a m) counts

/-- The occurrence counts computed by `_eliminate_single_use_type_vars`
(parameter types first, then the return type). -/
def methodTvCounts (fuel : Nat) (methodTypeVars : List TypeVarStr)
    (paramTypes : List TypeStr) (retType : TypeStr) : String → Nat :=
  let tvNames := methodTypeVars.map (fun tv => tv.pythonName)
  countTypevarUses fuel tvNames retType
    (paramTypes.foldl (fun m p => countTypevarUses fuel tvNames p m) (fun _ => 0))

/-- `_substitute_typestr` from `class_stub.py`: a node whose name is bound in
`subs` is replaced wholesale; otherwise a node with a non-empty argument list
is rebuilt with substituted arguments. -/
def substTypeStr : Nat → List (String × TypeStr) → TypeStr → TypeStr
  | 0, _, t => t
  | fuel + 1, subs, t =>
    match lookupAssoc subs t.name with
    | some r => r
    | none =>
      match t.typeArgs with
      | some (a :: as1) =>
        TypeStr.mk t.name (some ((a :: as1).map (substTypeStr fuel subs)))
      | _ => t

/-- `_eliminate_single_use_type_vars` from `class_stub.py`. -/
def eliminateSingleUseTypeVars (fuel : Nat) (methodTypeVars : List TypeVarStr)
    (paramTypes : List TypeStr) (retType : TypeStr) :
    List TypeVarStr × List TypeStr × TypeStr :=
  let counts := methodTvCounts fuel methodTypeVars paramTypes retType
  let sk := methodTypeVars.foldl
    (fun (p : List (String × TypeStr) × List TypeVarStr) tv =>
      if counts tv.pythonName ≤ 1 then
        (updateAssoc p.1 tv.pythonName
          (tv.bound.getD (TypeStr.mk "java.lang.Object" none)), p.2)
      else (p.1, p.2 ++ [tv]))
    ([], [])
  match sk.1 with
  | [] => (methodTypeVars, paramTypes, retType)
  | _ :: _ =>
    (sk.2, paramTypes.map (substTypeStr fuel sk.1), substTypeStr fuel sk.1 retType)

/-- The substitution map the specification describes: each method-scoped
type variable occurring at most once maps to its bound, or to
`java.lang.Object` when unbounded. -/
def elimSubs (fuel : Nat) (methodTypeVars : List TypeVarStr)
    (paramTypes : List TypeStr) (retType : TypeStr) : List (String × TypeStr) :=
  (methodTypeVars.filter
    (fun tv => methodTvCounts fuel methodTypeVars paramTypes retType tv.pythonName ≤ 1)).map
    (fun tv => (tv.pythonName, tv.bound.getD (TypeStr.mk "java.lang.Object" none)))

/-- The subset of an ASM `MethodNode` the stub generator reads
(`access`, `name`, `desc`, `signature`, `localVariables` as
`(index, name)` pairs). -/
structure MethodInfo where
  access : Nat
  name : String
  desc : String
  gsig : Option String := none
  localVariables : List (Nat × String) := []

/-- Modelled from the external ASM interface (`Type.getArgumentTypes` plus
`getSort`): for each argument of a method descriptor, whether it occupies
two JVM slots (`long`/`double`); `none` models the exception ASM raises on a
malformed descriptor. -/
def descArgWidesLoop : Nat → List Char → Option (List Bool)
  | _, ')' :: _ => some []
  | _, [] => none
  | fuel, cs =>
    match fuel with
    | 0 => none
    | f + 1 =>
      match cs with
      | 'J' :: r => (descArgWidesLoop f r).map (fun l => true :: l)
      | 'D' :: r => (descArgWidesLoop f r).map (fun l => true :: l)
      | 'L' :: r =>
        let sp := takeUntil (fun ch => ch = ';') r
        match sp.2 with
        | [] => none
        | _ :: r2 => (descArgWidesLoop f r2).map (fun l => false :: l)
      | '[' :: _ =>
        let afterBrackets := cs.dropWhile (fun c => c = '[')
        match afterBrackets with
        | 'L' :: r =>
          let sp := takeUntil (fun ch => ch = ';') r
          match sp.2 with
          | [] => none
          | _ :: r2 => (descArgWidesLoop f r2).map (fun l => false :: l)
        | e :: r2 =>
          if (primitiveDescName e).isSome then
            (descArgWidesLoop f r2).map (fun l => false :: l)
          else none
        | [] => none
      | e :: r2 =>
        if (primitiveDescName e).isSome then
          (descArgWidesLoop f r2).map (fun l => false :: l)
        else none
      | [] => none

/-- Argument slot widths for a full method descriptor. -/
def descArgWides (fuel : Nat) (desc : String) : Option (List Bool) :=
  match desc.data with
  | '(' :: rest => descArgWidesLoop fuel rest
  | _ => none

/-- The slot walk of `_get_param_names_from_local_vars`: one name per
argument, starting at the given slot; wide arguments advance the slot by
two. -/
def walkSlots (lv : Nat → String) : Nat → List Bool → List String
  | _, [] => []
  | slot, w :: ws => lv slot :: walkSlots lv (slot + if w then 2 else 1) ws

/-- `_get_param_names_from_local_vars` from `class_stub.py`.  The outer
`Option` models the exception on a malformed descriptor; the inner `Option`
is the Python `None` result (no local-variable debug info, or all names
empty).  The `lv_map` dict keeps the last binding of each slot index. -/
def getParamNamesFromLocalVars (fuel : Nat) (m : MethodInfo) :
    Option (Option (List String)) :=
  match m.localVariables with
  | [] => some none
  | _ =>
    let isStatic := m.access &&& ACC_STATIC ≠ 0
    let lv := fun slot =>
      (((m.localVariables.reverse.find? (fun kv => kv.1 = slot)).map
        (fun kv => kv.2)).getD "")
    match descArgWides fuel m.desc with
    | none => none
    | some wides =>
      let names := walkSlots lv (if isStatic then 0 else 1) wides
      if names.any (fun n => n ≠ "") then some (some names) else some none

/-- The argument-list construction of `_generate_method_stub_asm`
(lines building `args` from the parsed parameter types): `self` first for
instance methods, the varargs flag on the last parameter when the method has
`ACC_VARARGS`, unwrapping of `java.chaquopy.JavaArray[T]` for that
parameter, and debug names falling back to `arg1`, `arg2`, …. -/
def buildMethodArgs (isStatic isVarargs : Bool) (paramTypes : List TypeStr)
    (paramNames : Option (List String)) : List ArgSig :=
  (if isStatic then [] else [ArgSig.mk "self" none false]) ++
    paramTypes.enum.map (fun ip =>
      let idx := ip.1
      let isLast := idx = paramTypes.length - 1
      let isVa := isVarargs && isLast
      let pt :=
        if isVa then
          match ip.2 with
          | TypeStr.mk "java.chaquopy.JavaArray" (some (x :: _)) => x
          | t => t
        else ip.2
      let argName :=
        match paramNames with
        | some ns =>
          let nm := ns.getD idx ""
          if nm = "" then "arg" ++ toString (idx + 1) else nm
        | none => "arg" ++ toString (idx + 1)
      ArgSig.mk argName (some pt) isVa)

/-- One entry of `sig_parts` in `_generate_method_stub_asm`: `self` is kept
verbatim; an unsafe name falls back to `invalidArgName{idx}`; a varargs
parameter gains a `*`; the annotation is appended after `: `. -/
def renderArgPart (fuel : Nat) (packageName : String) (classesDone : List String)
    (idx : Nat) (arg : ArgSig) : String :=
  if arg.name = "self" then "self"
  else
    let safeName := match pysafe arg.name with
      | some s => s
      | none => "invalidArgName" ++ toString idx
    let safeName := if arg.varArgs then "*" ++ safeName else safeName
    match arg.argType with
    | some t =>
      safeName ++ ": " ++ toAnnotatedType fuel packageName classesDone true t
    | none => safeName

/-- The `regular_java_params` membership test of
`_generate_method_stub_asm`: neither `self` nor varargs. -/
def isRegularArg (a : ArgSig) : Bool := a.name != "self" && !a.varArgs

/-- `sig_parts` after the positional-only-marker insertion of
`_generate_method_stub_asm`: when at least one regular parameter exists,
`/` is inserted at the index of the first varargs argument (or appended when
there is none). -/
def buildSigParts (fuel : Nat) (packageName : String) (classesDone : List String)
    (args : List ArgSig) : List String :=
  let parts := args.enum.map
    (fun ia => renderArgPart fuel packageName classesDone ia.1 ia.2)
  if (args.filter isRegularArg).isEmpty then parts
  else insertAt parts (args.findIdx (fun a => a.varArgs)) "/"

/-- Python code-point comparison of strings (used by `sorted` on the
`(argument_count, descriptor)` key). -/
def charListLe : List Char → List Char → Bool
  | [], _ => true
  | _ :: _, [] => false
  | a :: as1, b :: bs =>
    if a = b then charListLe as1 bs
    else decide (a.toNat < b.toNat)

/-- The `sort_key` ordering of `_generate_method_stub_asm`:
`(argument_count, raw descriptor)` compared lexicographically.  The argument
count falls back to `0` on a descriptor ASM cannot parse (where the Python
code would raise and the caller would skip the whole method group). -/
def methodSortLe (fuel : Nat) (a b : MethodInfo) : Bool :=
  let ka : Nat := ((descArgWides fuel a.desc).map (fun l => l.length)).getD 0
  let kb : Nat := ((descArgWides fuel b.desc).map (fun l => l.length)).getD 0
  if ka = kb then charListLe a.desc.data b.desc.data else decide (ka < kb)

/-- Stable insertion into a sorted list (equal keys keep the earlier element
first, matching Python's stable `sorted`). -/
def insertSorted (le : α → α → Bool) (x : α) : List α → List α
  | [] => [x]
  | y :: ys => if le y x then y :: insertSorted le x ys else x :: y :: ys

/-- Stable sort by repeated insertion (models Python `sorted`). -/
def sortStable (le : α → α → Bool) (l : List α) : List α :=
  l.foldl (fun acc x => insertSorted le x acc) []

/-- `_generate_method_stub_asm` from `class_stub.py`, returning the lines it
appends to `output`; `none` models a parse failure the caller demotes to a
warning.  The write-only `imports_output` effect is dropped.
`methodCanReturnNone` — modelled from the spec: the hard-coded
`METHOD_CAN_RETURN_NONE` allowlist lives in `whitelists.py`, which is not
part of the provided sources, so the set is passed explicitly. -/
def generateMethodStubAsm (fuel : Nat) (packageName : String)
    (methodNamePy : String) (methods : List MethodInfo)
    (classesDone : List String) (classTypeVars : List TypeVarStr)
    (classNameDotted : String) (methodCanReturnNone : List String)
    (scopeIdPre : String) : Option (List String) := do
  let isConstructor := methodNamePy = "__init__"
  let isOverloaded := methods.length > 1
  let sortedMethods := sortStable (methodSortLe fuel) methods
  let signatures ← sortedMethods.enum.mapM (fun im => do
    let i := im.1
    let m := im.2
    let isStatic := m.access &&& ACC_STATIC ≠ 0
    let isVarargs := m.access &&& ACC_VARARGS ≠ 0
    let overloadScope :=
      if isOverloaded then scopeIdPre ++ "_" ++ toString i else scopeIdPre
    let parsed ← parseMethodSignature fuel m.gsig m.desc
      (if isStatic then [] else classTypeVars) isConstructor overloadScope
    let elim :=
      match parsed.1 with
      | [] => parsed
      | _ :: _ => eliminateSingleUseTypeVars fuel parsed.1 parsed.2.1 parsed.2.2
    let methodTypeVars := elim.1
    let paramTypes := elim.2.1
    let retType := elim.2.2
    let paramNames ← getParamNamesFromLocalVars fuel m
    let wlParams ← parseDescriptorParamsForWhitelist fuel m.desc
    let wlKey := methodWhitelistKey classNameDotted m.name wlParams
    let retType :=
      if wlKey ∈ methodCanReturnNone then
        TypeStr.mk "typing.Union" (some [retType, TypeStr.mk "None" none])
      else retType
    let args := buildMethodArgs isStatic isVarargs paramTypes paramNames
    pure (JavaFunctionSig.mk methodNamePy isStatic args retType methodTypeVars))
  let tvLines := (signatures.map (fun s =>
    s.typeVars.map (fun tv =>
      toTypeVarDeclaration fuel packageName classesDone tv))).flatten
  let defLines := (signatures.map (fun s =>
    let decorators :=
      (if isOverloaded then ["@typing.overload"] else []) ++
      (if s.static then ["@staticmethod"] else [])
    let sigParts := buildSigParts fuel packageName classesDone s.args
    let body :=
      if isConstructor then
        ["def __init__(" ++ joinSep ", " sigParts ++ ") -> None: ..."]
      else
        match pysafe s.name with
        | none => []
        | some fnName =>
          ["def " ++ fnName ++ "(" ++ joinSep ", " sigParts ++ ") -> " ++
            toAnnotatedType fuel packageName classesDone true s.retType ++ ": ..."]
    decorators ++ body)).flatten
  pure (tvLines ++ defLines)

/-- The supertype-annotation construction of
`convert_java_class_to_python_stub` (`class_stub.py` lines 529-559):
`java.lang.Object` is dropped whenever it is not the sole parsed supertype,
`typing.Generic[…]` is appended when the class has type parameters, and
`builtins.Exception` is appended for `java.lang.Throwable`. -/
def superTypeAnnotations (fuel : Nat) (packageName : String)
    (classesDone : List String) (superTypeStrs : List TypeStr)
    (classTypeVars : List TypeVarStr) (classNameDotted : String) : List String :=
  let base := superTypeStrs.filterMap (fun st =>
    if st.name = "java.lang.Object" ∧ superTypeStrs.length > 1 then none
    else some (toAnnotatedType fuel packageName classesDone false st))
  let base :=
    if classTypeVars.isEmpty then base
    else base ++
      ["typing.Generic[" ++
        (joinSep ", " (classTypeVars.map (fun tv => tv.pythonName)) ++ "]")]
  if classNameDotted = "java.lang.Throwable" then base ++ ["builtins.Exception"]
  else base

/-! ## Package driver (`main.py`) -/

/-- The package payload carried per package key: the class-file path list and
the class-name-to-bytes mapping (bytes as `List Nat`). -/
abbrev PkgData : Type := List String × List (String × List Nat)

/-- The merging loop of `convert_to_python_stubs` (lines 205-207): for every
package key of the new input, the accumulated dicts get the new input's value
(`packages[package_dir] = class_files`;
`all_class_data[package_dir] = new_class_data[package_dir]`). -/
def mergePackagesInput (st : List (String × α)) (inp : List (String × α)) :
    List (String × α) :=
  inp.foldl (fun acc kv => updateAssoc acc kv.1 kv.2) st

/-- The whole input loop of `convert_to_python_stubs`: inputs merged in
order, starting from empty dicts.  The collision check present in the source
is commented out, so no error is possible here. -/
def collectPackagesState (inputs : List (List (String × α))) : List (String × α) :=
  inputs.foldl mergePackagesInput []

/-- Python `Path(f).parent` rendered with `/` separators (`.` for a bare
file name). -/
def parentDir (s : String) : String :=
  let parts := splitOnChar '/' s
  if parts.length ≤ 1 then "." else joinSep "/" parts.dropLast

/-- `_collect_packages_from_entries` from `main.py`, with the two parallel
dicts combined into one `PkgData` value per package. -/
def groupEntries (entries : List (String × List Nat)) : List (String × PkgData) :=
  entries.foldl (fun acc e =>
    let pkg := parentDir e.1
    let cur : PkgData := (lookupAssoc acc pkg).getD ([], [])
    updateAssoc acc pkg
      (cur.1 ++ [e.1], updateAssoc cur.2 (removesuffix e.1 ".class") e.2)) []

/-- A filesystem effect of the stub-generation entry point. -/
inductive FsAction where
  | readInput (index : Nat)
  | removeTree (path : String)
  | writeFile (path : String)
deriving DecidableEq, Repr

/-- The errors `convert_to_python_stubs` can raise (all `ValueError`s). -/
inductive StubError where
  | shallowOutputDir
  | missingClassesJar
deriving DecidableEq, Repr

/-- One input of `convert_to_python_stubs`: its path suffix, whether an
`.aar` contains `classes.jar`, and the `(relative path, bytes)` entries the
archive or directory yields. -/
structure InputSpec where
  pathSuffix : String
  hasClassesJar : Bool := true
  entries : List (String × List Nat) := []

/-- `_open_jar_or_aar_from_file` plus the per-input branch of
`convert_to_python_stubs`: `.jar`/`.aar` archives yield their `.class`
members (an `.aar` without `classes.jar` raises); any other path is treated
as a directory whose `rglob("*.class")` entries are given. -/
def openInputEntries (inp : InputSpec) : Except StubError (List (String × List Nat)) :=
  if inp.pathSuffix = ".jar" then
    Except.ok (inp.entries.filter (fun e => strEndsWith e.1 ".class"))
  else if inp.pathSuffix = ".aar" then
    if inp.hasClassesJar then
      Except.ok (inp.entries.filter (fun e => strEndsWith e.1 ".class"))
    else Except.error StubError.missingClassesJar
  else Except.ok inp.entries

/-- The input-collection loop of `convert_to_python_stubs`: each input is
read (one `readInput` effect) and merged; a raising input aborts the loop. -/
def collectPhase : List InputSpec → Nat → List (String × PkgData) →
    List FsAction × Except StubError (List (String × PkgData))
  | [], _, st => ([], Except.ok st)
  | inp :: rest, i, st =>
    match openInputEntries inp with
    | Except.error e => ([], Except.error e)
    | Except.ok entries =>
      let st2 := mergePackagesInput st (groupEntries entries)
      let r := collectPhase rest (i + 1) st2
      (FsAction.readInput i :: r.1, r.2)

/-- `convert_to_python_stubs` from `main.py` as an effect trace: the
too-shallow output directory is rejected before anything is read, deleted or
written; then inputs are collected, the synthetic `java` package is injected
when a `java/` sub-package exists, the output directory is cleared when
requested, and one `__init__.pyi` per package is written. -/
def convertToPythonStubs (outputDirParts : List String) (inputs : List InputSpec)
    (clearOutputDir : Bool) : List FsAction × Option StubError :=
  if outputDirParts.length < 3 then ([], some StubError.shallowOutputDir)
  else
    match collectPhase inputs 0 [] with
    | (acts, Except.error e) => (acts, some e)
    | (acts, Except.ok packages) =>
      let packages :=
        if packages.any (fun kv => strStartsWith kv.1 "java/") then
          if (lookupAssoc packages "java").isSome then packages
          else packages ++ [("java", (([], []) : PkgData))]
        else packages
      let acts := acts ++
        (if clearOutputDir then [FsAction.removeTree (joinSep "/" outputDirParts)]
         else [])
      let acts := acts ++ packages.map (fun kv =>
        FsAction.writeFile (joinSep "/" (outputDirParts ++ [kv.1, "__init__.pyi"])))
      (acts, none)

/-! ## Theorems -/

/-- The translator fails exactly on a primitive (or boxed) name flagged as
both argument and array parameter. -/
theorem collectImplicitUnion_eq_none_iff (typeName : String)
    (typeArgs : Option (List TypeStr)) (isArgument isArrayParam isTypeArg : Bool) :
    collectImplicitUnion typeName typeArgs isArgument isArrayParam isTypeArg = none ↔
      ((typeNameToPrimitive typeName).isSome ∧ isArgument = true ∧ isArrayParam = true) := by
  cases h : typeNameToPrimitive typeName with
  | none => simp [collectImplicitUnion, h]
  | some p =>
    cases isArgument <;> cases isArrayParam <;>
      simp [collectImplicitUnion, h]

/-- C10. The name translator raises (returns `none`) if and only if the type
name is a Java primitive or boxed primitive and both the argument flag and
the array-parameter flag are set; for every other flag combination, and for
every non-primitive name under any flags, it never raises. -/
theorem c10_translate_raises_iff (typeName : String)
    (typeArgs : Option (List TypeStr)) (isArgument isArrayParam isTypeArg : Bool) :
    translateTypeName typeName typeArgs isArgument isArrayParam isTypeArg = none ↔
      ((typeNameToPrimitive typeName).isSome ∧ isArgument = true ∧ isArrayParam = true) := by
  rw [← collectImplicitUnion_eq_none_iff typeName typeArgs isArgument isArrayParam isTypeArg]
  unfold translateTypeName
  cases collectImplicitUnion typeName typeArgs isArgument isArrayParam isTypeArg <;> simp

/-- C7 counterexample. Two distinct `TypeStr` values —
`builtins.int` and `int` — render to the same text `int` in the same
context, so equality of values is not equivalent to equality of rendered
text. -/
theorem c7_roundtrip_counterexample :
    ¬ ((TypeStr.mk "builtins.int" none = TypeStr.mk "int" none) ↔
       (toAnnotatedType 10 "com.example" [] true (TypeStr.mk "builtins.int" none) =
        toAnnotatedType 10 "com.example" [] true (TypeStr.mk "int" none))) := by
  intro h
  have h2 := h.mpr (by rfl)
  have h3 := congrArg TypeStr.name h2
  simp at h3

/-- C7 amended. Rendering only depends on the value and the context, so two
equal `TypeStr` values always render to identical text (the converse
direction of the round-trip claim fails, see the counterexample). -/
theorem c7_equal_values_render_equal (fuel : Nat) (packageName : String)
    (classesDone : List String) (canBeDeferred : Bool) (t u : TypeStr)
    (h : t = u) :
    toAnnotatedType fuel packageName classesDone canBeDeferred t =
      toAnnotatedType fuel packageName classesDone canBeDeferred u := by
  rw [h]

/-- Witness for the C7 amended theorem at a concrete input. -/
theorem c7_equal_values_render_equal_witness :
    toAnnotatedType 10 "com.example" [] true (TypeStr.mk "java.util.List" none) =
      toAnnotatedType 10 "com.example" [] true (TypeStr.mk "java.util.List" none) :=
  c7_equal_values_render_equal 10 "com.example" [] true
    (TypeStr.mk "java.util.List" none) (TypeStr.mk "java.util.List" none) rfl

/-- The `Math` scenario input: `static int sum(int... xs)` — access flags
`ACC_PUBLIC | ACC_STATIC | ACC_VARARGS = 137`, descriptor `([I)I`, no
generic signature, and a local-variable debug entry naming slot 0 `xs`. -/
def mathSumMethod : MethodInfo :=
  MethodInfo.mk 137 "sum" "([I)I" none [(0, "xs")]

/-- C1 counterexample. For `static int sum(int... xs)` in class `Math` the
generated stub is `@staticmethod` followed by
`def sum(*xs: java.chaquopy.JavaArrayJInt) -> int: ...` — it does NOT
contain the claimed `/` marker (there is no regular parameter) and the
varargs annotation is the primitive array type, not the unwrapped union
`int | java.jint | java.lang.Integer`. -/
theorem c1_varargs_counterexample :
    generateMethodStubAsm 64 "" "sum" [mathSumMethod] ["Math"] [] "Math" [] "sum" ≠
      some ["@staticmethod",
        "def sum(/, *xs: int | java.jint | java.lang.Integer) -> int: ..."] := by
  intro h
  have h2 : (some ["@staticmethod",
      "def sum(*xs: java.chaquopy.JavaArrayJInt) -> int: ..."] :
        Option (List String)) =
      some ["@staticmethod",
        "def sum(/, *xs: int | java.jint | java.lang.Integer) -> int: ..."] := by
    rw [← h]; rfl
  simp at h2

/-- C1 amended. For `static int sum(int... xs)` in class `Math` the
generated stub is exactly `@staticmethod` followed by
`def sum(*xs: java.chaquopy.JavaArrayJInt) -> int: ...`: no `/` marker is
inserted because the only parameter is the varargs parameter, and a
primitive varargs parameter keeps its specialized Java array type. -/
theorem c1_varargs_stub :
    generateMethodStubAsm 64 "" "sum" [mathSumMethod] ["Math"] [] "Math" [] "sum" =
      some ["@staticmethod",
        "def sum(*xs: java.chaquopy.JavaArrayJInt) -> int: ..."] := by
  rfl

theorem typeNameToPrimitive_spec {n : String} {p : Primitive}
    (h : typeNameToPrimitive n = some p) :
    p ∈ PRIMITIVES ∧ (n = p.javaPrimitive ∨ n = p.javaObject) := by
  unfold typeNameToPrimitive at h
  refine ⟨List.mem_of_find?_eq_some h, ?_⟩
  have hp := List.find?_some h
  simp at hp
  rcases hp with hp | hp
  · exact Or.inl hp.symm
  · exact Or.inr hp.symm

theorem primitive_fields_not_special :
    ∀ p ∈ PRIMITIVES,
      p.javaPrimitive ≠ "java.lang.String" ∧ p.javaPrimitive ≠ "java.lang.Class" ∧
      p.javaPrimitive ≠ "java.lang.Object" ∧
      p.javaObject ≠ "java.lang.String" ∧ p.javaObject ≠ "java.lang.Class" ∧
      p.javaObject ≠ "java.lang.Object" ∧
      p.pythonType ≠ "typing.Union" ∧ p.pythonPrimitive ≠ "typing.Union" ∧
      p.javaObject ≠ "typing.Union" := by decide

theorem translate_primitive_argument_union (typeName : String) (p : Primitive) (typeArgs : Option (List TypeStr))
    (h : typeNameToPrimitive typeName = some p) :
    translateTypeName typeName typeArgs true false false =
      some (TypeStr.mk "typing.Union" (some
        [TypeStr.mk p.pythonType none, TypeStr.mk p.pythonPrimitive none,
         TypeStr.mk p.javaObject none])) := by
  obtain ⟨hmem, hn⟩ := typeNameToPrimitive_spec h
  obtain ⟨h1, h2, h3, h4, h5, h6, -, -, -⟩ := primitive_fields_not_special p hmem
  have hs : typeName ≠ "java.lang.String" := by rcases hn with rfl | rfl <;> assumption
  have hc : typeName ≠ "java.lang.Class" := by rcases hn with rfl | rfl <;> assumption
  have ho : typeName ≠ "java.lang.Object" := by rcases hn with rfl | rfl <;> assumption
  simp [translateTypeName, collectImplicitUnion, unionStringPart, unionClassPart,
    unionObjectPart, h, hs, hc, ho]



theorem unionStringPart_not_union {typeName : String} {a b c : Bool} {x : TypeStr}
    (hy : x ∈ unionStringPart typeName a b c) : x.name ≠ "typing.Union" := by
  unfold unionStringPart at hy
  split at hy
  · split at hy
    · simp at hy; subst hy; simp
    · simp at hy
      rcases hy with rfl | ⟨-, rfl⟩ <;> simp
  · simp at hy

theorem unionClassPart_not_union {typeName : String} {typeArgs : Option (List TypeStr)}
    {x : TypeStr} (hy : x ∈ unionClassPart typeName typeArgs) :
    x.name ≠ "typing.Union" := by
  unfold unionClassPart at hy
  split at hy
  · simp at hy; subst hy; simp
  · simp at hy

theorem unionObjectPart_not_union {typeName : String} {a : Bool} {x : TypeStr}
    (hy : x ∈ unionObjectPart typeName a) : x.name ≠ "typing.Union" := by
  unfold unionObjectPart at hy
  split at hy
  · simp at hy
    rcases hy with rfl | ⟨-, rfl | rfl | rfl | rfl⟩ <;> simp
  · simp at hy

theorem collectImplicitUnion_member_names {typeName : String}
    {typeArgs : Option (List TypeStr)} {isArgument isArrayParam isTypeArg : Bool}
    {u : List TypeStr} (h : collectImplicitUnion typeName typeArgs isArgument
      isArrayParam isTypeArg = some u) :
    ∀ x ∈ u, x.name ≠ "typing.Union" := by
  intro x hx
  have htail : ∀ y, y ∈ (unionStringPart typeName isArgument isArrayParam isTypeArg ++
      unionClassPart typeName typeArgs ++ unionObjectPart typeName isArgument) →
      y.name ≠ "typing.Union" := by
    intro y hy
    rcases List.mem_append.mp hy with hy | hy
    · rcases List.mem_append.mp hy with hy | hy
      · exact unionStringPart_not_union hy
      · exact unionClassPart_not_union hy
    · exact unionObjectPart_not_union hy
  cases hp : typeNameToPrimitive typeName with
  | none =>
    simp only [collectImplicitUnion, hp, Option.some.injEq] at h
    subst h
    exact htail x hx
  | some p =>
    simp only [collectImplicitUnion, hp] at h
    obtain ⟨hmem, -⟩ := typeNameToPrimitive_spec hp
    obtain ⟨-, -, -, -, -, -, hpt, hpp, hjo⟩ := primitive_fields_not_special p hmem
    split at h
    · exact absurd h (by simp)
    · simp only [Option.some.injEq] at h
      subst h
      rcases List.mem_append.mp hx with hx | hx
      · split at hx
        · rcases List.mem_append.mp hx with hx | hx
          · split at hx
            · simp at hx; subst hx; exact hpp
            · split at hx
              · simp at hx; subst hx; exact hjo
              · simp at hx; subst hx; exact hpt
          · simp at hx
            rcases hx with rfl | rfl
            · exact hpp
            · exact hjo
        · split at hx
          · simp at hx; subst hx; exact hpp
          · split at hx
            · simp at hx; subst hx; exact hjo
            · simp at hx; subst hx; exact hpt
      · exact htail x hx

/-- C6. (a) A primitive or boxed-primitive name translated in argument
context (argument flag set, array-parameter flag clear, type-argument flag
clear as in every call site translating a method argument) yields the union
of the default Python counterpart, the bridge primitive alias and the boxed
form, in that order.  (b) For any translation (of a name that is not itself
the literal `typing.Union`): a one-member collected union yields the bare
member, never a `typing.Union` node, and a `typing.Union` node is returned
only when the collected union has two or more members. -/
theorem c6_union_membership_and_collapse :
    (∀ (typeName : String) (p : Primitive) (typeArgs : Option (List TypeStr)),
      typeNameToPrimitive typeName = some p →
      translateTypeName typeName typeArgs true false false =
        some (TypeStr.mk "typing.Union" (some
          [TypeStr.mk p.pythonType none, TypeStr.mk p.pythonPrimitive none,
           TypeStr.mk p.javaObject none]))) ∧
    (∀ (typeName : String) (typeArgs : Option (List TypeStr))
        (isArgument isArrayParam isTypeArg : Bool) (u : List TypeStr),
      typeName ≠ "typing.Union" →
      collectImplicitUnion typeName typeArgs isArgument isArrayParam isTypeArg = some u →
      ((∀ x, u = [x] →
          translateTypeName typeName typeArgs isArgument isArrayParam isTypeArg =
            some (TypeStr.mk x.name x.typeArgs) ∧ x.name ≠ "typing.Union") ∧
        (∀ t, translateTypeName typeName typeArgs isArgument isArrayParam isTypeArg = some t →
          t.name = "typing.Union" → 2 ≤ u.length))) := by
  constructor
  · exact translate_primitive_argument_union
  · intro typeName typeArgs a b c u hne hcol
    constructor
    · intro x hu
      subst hu
      constructor
      · unfold translateTypeName
        rw [hcol]
        rfl
      · exact collectImplicitUnion_member_names hcol x (by simp)
    · intro t ht hname
      unfold translateTypeName at ht
      rw [hcol] at ht
      rcases u with _ | ⟨x, _ | ⟨y, rest⟩⟩
      · simp only [Option.map] at ht
        injection ht with ht
        rw [← ht] at hname
        exact absurd hname hne
      · simp only [Option.map] at ht
        injection ht with ht
        rw [← ht] at hname
        exact absurd hname (collectImplicitUnion_member_names hcol x (by simp))
      · simp


/-- Witness for C6 at concrete inputs: `int` in argument context, and the
one-member union of `java.lang.String` in default context. -/
theorem c6_union_membership_and_collapse_witness :
    (translateTypeName "int" none true false false =
      some (TypeStr.mk "typing.Union" (some
        [TypeStr.mk "int" none, TypeStr.mk "java.jint" none,
         TypeStr.mk "java.lang.Integer" none]))) ∧
    (translateTypeName "java.lang.String" none false false false =
        some (TypeStr.mk "str" none) ∧ "str" ≠ "typing.Union") :=
  ⟨c6_union_membership_and_collapse.1 "int"
      (Primitive.mk "int" "java.lang.Integer" "java.jint" "int") none rfl,
   (c6_union_membership_and_collapse.2 "java.lang.String" none false false false
      [TypeStr.mk "str" none] (by decide) rfl).1 (TypeStr.mk "str" none) rfl⟩

theorem findIdx_first_eq {α : Type} (p : α → Bool) :
    ∀ (l : List α) (k : Nat) (va : α),
      l[k]? = some va → p va = true →
      (∀ j aj, j < k → l[j]? = some aj → p aj = false) →
      l.findIdx p = k := by
  intro l
  induction l with
  | nil => intro k va hk; simp at hk
  | cons a t ih =>
    intro k va hk hva hbefore
    cases k with
    | zero =>
      rw [List.getElem?_cons_zero] at hk
      injection hk with hk
      subst hk
      simp [List.findIdx_cons, hva]
    | succ j =>
      rw [List.getElem?_cons_succ] at hk
      have ha : p a = false := hbefore 0 a (Nat.succ_pos j) List.getElem?_cons_zero
      rw [List.findIdx_cons, ha]
      simp only [cond_false]
      rw [ih j va hk hva (fun j2 aj hj2 hget =>
        hbefore (j2 + 1) aj (Nat.succ_lt_succ hj2) (by
          rw [List.getElem?_cons_succ]; exact hget))]

theorem count_insertAt_slash {parts : List String} {k : Nat}
    (hp : ∀ s ∈ parts, s ≠ "/") :
    (parts.take k ++ "/" :: parts.drop k).count "/" = 1 := by
  rw [List.count_append, List.count_cons]
  have h1 : (parts.take k).count "/" = 0 :=
    List.count_eq_zero.mpr (fun hmem => hp _ (List.mem_of_mem_take hmem) rfl)
  have h2 : (parts.drop k).count "/" = 0 :=
    List.count_eq_zero.mpr (fun hmem => hp _ (List.mem_of_mem_drop hmem) rfl)
  simp [h1, h2]

/-- C2. In every rendered parameter list: when at least one parameter is
neither `self` nor varargs, exactly one `/` marker appears, inserted
immediately before the (first) `*varargs` parameter's entry when one exists
and at the end of the list otherwise; when no such regular parameter exists,
no `/` marker appears.  (The hypothesis rules out an argument whose own
rendered entry is the literal `/`, which no Java parameter produces.) -/
theorem c2_positional_only_marker (fuel : Nat) (packageName : String) (classesDone : List String)
    (args : List ArgSig)
    (hp : ∀ s ∈ args.enum.map
        (fun ia => renderArgPart fuel packageName classesDone ia.1 ia.2), s ≠ "/") :
    ((args.filter isRegularArg ≠ [] →
        (buildSigParts fuel packageName classesDone args).count "/" = 1 ∧
        ((∀ a ∈ args, a.varArgs = false) →
          buildSigParts fuel packageName classesDone args =
            (args.enum.map (fun ia => renderArgPart fuel packageName classesDone ia.1 ia.2))
              ++ ["/"]) ∧
        (∀ k va, args[k]? = some va → va.varArgs = true →
          (∀ j aj, j < k → args[j]? = some aj → aj.varArgs = false) →
          buildSigParts fuel packageName classesDone args =
            (args.enum.map (fun ia => renderArgPart fuel packageName classesDone ia.1 ia.2)).take k
              ++ "/" ::
            (args.enum.map (fun ia => renderArgPart fuel packageName classesDone ia.1 ia.2)).drop k)) ∧
     (args.filter isRegularArg = [] →
        buildSigParts fuel packageName classesDone args =
          args.enum.map (fun ia => renderArgPart fuel packageName classesDone ia.1 ia.2) ∧
        (buildSigParts fuel packageName classesDone args).count "/" = 0)) := by
  constructor
  · intro hreg
    have hne : ¬ (args.filter isRegularArg).isEmpty := by
      simpa [List.isEmpty_iff] using hreg
    have hbuild : buildSigParts fuel packageName classesDone args =
        insertAt (args.enum.map (fun ia => renderArgPart fuel packageName classesDone ia.1 ia.2))
          (args.findIdx (fun a => a.varArgs)) "/" := by
      unfold buildSigParts
      rw [if_neg hne]
    refine ⟨?_, ?_, ?_⟩
    · rw [hbuild]
      exact count_insertAt_slash hp
    · intro hnova
      rw [hbuild]
      unfold insertAt
      have hidx : args.findIdx (fun a => a.varArgs) = args.length :=
        List.findIdx_eq_length.mpr (fun a ha => hnova a ha)
      rw [hidx]
      have hlen : (args.enum.map
          (fun ia => renderArgPart fuel packageName classesDone ia.1 ia.2)).length =
          args.length := by
        rw [List.length_map, List.enum_length]
      rw [← hlen, List.take_length, List.drop_length]
    · intro k va hk hva hbefore
      rw [hbuild]
      unfold insertAt
      rw [findIdx_first_eq (fun a => a.varArgs) args k va hk hva hbefore]
  · intro hreg
    have hne : (args.filter isRegularArg).isEmpty := by
      simp [List.isEmpty_iff, hreg]
    have hbuild : buildSigParts fuel packageName classesDone args =
        args.enum.map (fun ia => renderArgPart fuel packageName classesDone ia.1 ia.2) := by
      unfold buildSigParts
      rw [if_pos hne]
    refine ⟨hbuild, ?_⟩
    rw [hbuild]
    exact List.count_eq_zero.mpr (fun hmem => hp _ hmem rfl)

/-- The parameter list of `void f(int x, int... xs)` as built by
`buildMethodArgs` for an instance method. -/
def demoArgs : List ArgSig :=
  [ArgSig.mk "self" none false,
   ArgSig.mk "x" (some (TypeStr.mk "int" none)) false,
   ArgSig.mk "xs" (some (TypeStr.mk "int" none)) true]

/-- Witness for C2: with one regular parameter and a trailing varargs
parameter, the rendered list has exactly one `/`, placed immediately before
the varargs entry. -/
theorem c2_positional_only_marker_witness :
    (buildSigParts 8 "" [] demoArgs).count "/" = 1 ∧
    buildSigParts 8 "" [] demoArgs =
      (demoArgs.enum.map (fun ia => renderArgPart 8 "" [] ia.1 ia.2)).take 2 ++ "/" ::
        (demoArgs.enum.map (fun ia => renderArgPart 8 "" [] ia.1 ia.2)).drop 2 := by
  have h := c2_positional_only_marker 8 "" [] demoArgs (by decide)
  have hreg : List.filter isRegularArg demoArgs ≠ [] := by
    rw [show List.filter isRegularArg demoArgs =
      [ArgSig.mk "x" (some (TypeStr.mk "int" none)) false] from rfl]
    simp
  refine ⟨(h.1 hreg).1, ?_⟩
  refine (h.1 hreg).2.2 2 (ArgSig.mk "xs" (some (TypeStr.mk "int" none)) true)
    rfl rfl ?_
  intro j aj hj hget
  match j, hget with
  | 0, h0 => injection h0 with h0; rw [← h0]; rfl
  | 1, h1 => injection h1 with h1; rw [← h1]; rfl
  | n + 2, _ => exact absurd hj (by omega)

theorem lookupAssoc_cons {α : Type} (kv : String × α) (rest : List (String × α))
    (k2 : String) :
    lookupAssoc (kv :: rest) k2 = if kv.1 = k2 then some kv.2 else lookupAssoc rest k2 := by
  by_cases h : kv.1 = k2
  · have hb : (kv.1 == k2) = true := beq_iff_eq.mpr h
    simp [lookupAssoc, List.find?, hb, h]
  · have hb : (kv.1 == k2) = false := by simp [h]
    simp [lookupAssoc, List.find?, hb, h]

theorem lookupAssoc_updateAssoc {α : Type} (m : List (String × α)) (k k2 : String)
    (v : α) :
    lookupAssoc (updateAssoc m k v) k2 = if k2 = k then some v else lookupAssoc m k2 := by
  induction m with
  | nil =>
    rw [show updateAssoc ([] : List (String × α)) k v = [(k, v)] from rfl,
      lookupAssoc_cons]
    by_cases h : k2 = k
    · simp [h]
    · simp [h, Ne.symm h, lookupAssoc, List.find?]
  | cons kv rest ih =>
    by_cases h1 : kv.1 = k
    · rw [show updateAssoc (kv :: rest) k v = (k, v) :: rest from by
        simp [updateAssoc, h1], lookupAssoc_cons, lookupAssoc_cons]
      by_cases h2 : k2 = k
      · simp [h2]
      · have hk : ¬ (k = k2) := fun hh => h2 hh.symm
        have hkv : ¬ (kv.1 = k2) := by rw [h1]; exact hk
        simp [hk, hkv, h2]
    · rw [show updateAssoc (kv :: rest) k v = kv :: updateAssoc rest k v from by
        simp [updateAssoc, h1], lookupAssoc_cons, lookupAssoc_cons]
      by_cases h2 : kv.1 = k2
      · have hne : ¬ (k2 = k) := fun hh => h1 (by rw [h2, hh])
        simp [h2, hne]
      · simp [h2, ih]

theorem lookupLast_cons {α : Type} (kv : String × α) (rest : List (String × α))
    (k : String) :
    lookupLast (kv :: rest) k =
      ((lookupLast rest k).or (if kv.1 = k then some kv.2 else none)) := by
  unfold lookupLast
  rw [List.reverse_cons, List.find?_append]
  cases hf : List.find? (fun kv => kv.1 == k) rest.reverse with
  | some w => simp
  | none =>
    by_cases h : kv.1 = k
    · have hb : (kv.1 == k) = true := beq_iff_eq.mpr h
      simp [List.find?, hb, h]
    · have hb : (kv.1 == k) = false := by simp [h]
      simp [List.find?, hb, h]

theorem lookupAssoc_mergePackagesInput {α : Type} (inp st : List (String × α))
    (k : String) :
    lookupAssoc (mergePackagesInput st inp) k =
      ((lookupLast inp k).or (lookupAssoc st k)) := by
  induction inp generalizing st with
  | nil => simp [mergePackagesInput, lookupLast, List.find?]
  | cons kv rest ih =>
    rw [show mergePackagesInput st (kv :: rest) =
      mergePackagesInput (updateAssoc st kv.1 kv.2) rest from rfl]
    rw [ih, lookupLast_cons, lookupAssoc_updateAssoc]
    cases hll : lookupLast rest k with
    | some v => simp
    | none =>
      by_cases h : kv.1 = k
      · simp [h]
      · have h2 : ¬ (k = kv.1) := fun hh => h hh.symm
        simp [h, h2]

theorem foldl_merge_preserve {α : Type} (p : String) (v : α) :
    ∀ (post : List (List (String × α))) (st : List (String × α)),
      (∀ inp2 ∈ post, lookupLast inp2 p = none) →
      lookupAssoc st p = some v →
      lookupAssoc (post.foldl mergePackagesInput st) p = some v := by
  intro post
  induction post with
  | nil => intro st _ h; exact h
  | cons i rest ih =>
    intro st hafter hst
    rw [List.foldl_cons]
    apply ih _ (fun i2 h2 => hafter i2 (List.mem_cons_of_mem _ h2))
    rw [lookupAssoc_mergePackagesInput, hafter i (List.mem_cons_self _ _)]
    simpa using hst

/-- C8. When several inputs bind the same package key, the state handed to
stub generation holds the last-binding input's value for that key — the
earlier inputs' class list and class-bytes mapping are replaced wholesale and
no error is raised (`collectPackagesState` is total; the collision check in
the source is commented out). -/
theorem c8_later_input_overwrites {α : Type} (pre post : List (List (String × α)))
    (inp : List (String × α)) (p : String) (v : α)
    (hin : lookupLast inp p = some v)
    (hafter : ∀ inp2 ∈ post, lookupLast inp2 p = none) :
    lookupAssoc (collectPackagesState (pre ++ inp :: post)) p = some v := by
  unfold collectPackagesState
  rw [List.foldl_append, List.foldl_cons]
  apply foldl_merge_preserve p v post _ hafter
  rw [lookupAssoc_mergePackagesInput, hin]
  rfl

/-- Witness for C8: two inputs contribute to package `com/a`; the collected
state holds the second input's class list and bytes. -/
theorem c8_later_input_overwrites_witness :
    lookupAssoc (collectPackagesState
      ([[("com/a", ((["com/a/A.class"], [("com/a/A", [1])]) : PkgData))],
        [("com/a", ((["com/a/B.class"], [("com/a/B", [2])]) : PkgData))]]))
      "com/a" = some ((["com/a/B.class"], [("com/a/B", [2])]) : PkgData) :=
  c8_later_input_overwrites
    [[("com/a", ((["com/a/A.class"], [("com/a/A", [1])]) : PkgData))]] []
    [("com/a", ((["com/a/B.class"], [("com/a/B", [2])]) : PkgData))]
    "com/a" ((["com/a/B.class"], [("com/a/B", [2])]) : PkgData)
    rfl (fun _ h => absurd h (List.not_mem_nil _))

theorem openInputEntries_error {inp : InputSpec} {e : StubError}
    (h : openInputEntries inp = Except.error e) :
    e = StubError.missingClassesJar := by
  unfold openInputEntries at h
  split at h
  · cases h
  · split at h
    · split at h
      · cases h
      · injection h with h
        exact h.symm
    · cases h

theorem collectPhase_error_not_shallow :
    ∀ (inputs : List InputSpec) (i : Nat) (st : List (String × PkgData))
      (e : StubError),
      (collectPhase inputs i st).2 = Except.error e →
      e ≠ StubError.shallowOutputDir := by
  intro inputs
  induction inputs with
  | nil => intro i st e h; simp [collectPhase] at h
  | cons inp rest ih =>
    intro i st e h
    unfold collectPhase at h
    cases ho : openInputEntries inp with
    | error e2 =>
      rw [ho] at h
      simp at h
      rw [← h]
      rw [openInputEntries_error ho]
      simp
    | ok entries =>
      rw [ho] at h
      simp at h
      exact ih _ _ e h

/-- C9. An output directory resolving to fewer than three path components is
rejected with `shallowOutputDir` before any input is read, anything deleted
or anything written (the action trace is empty); with three or more
components that error is never raised (other input errors remain possible,
but never `shallowOutputDir`). -/
theorem c9_shallow_output_guard (outputDirParts : List String) (inputs : List InputSpec)
    (clearOutputDir : Bool) :
    (outputDirParts.length < 3 →
      convertToPythonStubs outputDirParts inputs clearOutputDir =
        ([], some StubError.shallowOutputDir)) ∧
    (3 ≤ outputDirParts.length →
      (convertToPythonStubs outputDirParts inputs clearOutputDir).2 ≠
        some StubError.shallowOutputDir) := by
  constructor
  · intro h
    unfold convertToPythonStubs
    rw [if_pos h]
  · intro h3
    unfold convertToPythonStubs
    rw [if_neg (by omega)]
    cases hc : collectPhase inputs 0 [] with
    | mk acts res =>
      cases res with
      | error e =>
        simp only []
        intro hcontra
        have he : (collectPhase inputs 0 []).2 = Except.error e := by rw [hc]
        have h2 := collectPhase_error_not_shallow inputs 0 [] e he
        injection hcontra with hcontra
        exact h2 hcontra
      | ok packages => simp

/-- Witness for C9: a two-component output path is rejected without effects;
a four-component path never yields the shallow-output error. -/
theorem c9_shallow_output_guard_witness :
    convertToPythonStubs ["/", "tmp"] [] true =
      ([], some StubError.shallowOutputDir) ∧
    (convertToPythonStubs ["/", "home", "user", "stubs"] [] true).2 ≠
      some StubError.shallowOutputDir :=
  ⟨(c9_shallow_output_guard ["/", "tmp"] [] true).1 (by decide),
   (c9_shallow_output_guard ["/", "home", "user", "stubs"] [] true).2 (by decide)⟩

theorem typingGeneric_ne_object (s : String) :
    "typing.Generic[" ++ s ≠ "java.lang.Object" := by
  intro h
  have h1 : ("typing.Generic[" ++ s).data.head? = some 't' := rfl
  rw [h] at h1
  have h2 : "java.lang.Object".data.head? = some 'j' := rfl
  rw [h2] at h1
  injection h1 with h1
  exact absurd h1 (by decide)

theorem c4_part2 (fuel : Nat) (packageName : String) (classesDone : List String)
    (superTypeStrs : List TypeStr) (classTypeVars : List TypeVarStr)
    (classNameDotted : String)
    (hr : ∀ st ∈ superTypeStrs,
      toAnnotatedType fuel packageName classesDone false st = "java.lang.Object" →
      st.name = "java.lang.Object")
    (hmem : "java.lang.Object" ∈ superTypeAnnotations fuel packageName classesDone
      superTypeStrs classTypeVars classNameDotted) :
    ∃ st, superTypeStrs = [st] ∧ st.name = "java.lang.Object" := by
  have hpeel : ∀ l : List String,
      "java.lang.Object" ∈ (if classTypeVars.isEmpty then l
        else l ++ ["typing.Generic[" ++
          (joinSep ", " (classTypeVars.map (fun tv => tv.pythonName)) ++ "]")]) →
      "java.lang.Object" ∈ l := by
    intro l hm
    split at hm
    · exact hm
    · rcases List.mem_append.mp hm with hm | hm
      · exact hm
      · simp at hm
        exact absurd hm.symm (typingGeneric_ne_object _)
  have hexc : ∀ l : List String,
      "java.lang.Object" ∈ (if classNameDotted = "java.lang.Throwable" then
        l ++ ["builtins.Exception"] else l) →
      "java.lang.Object" ∈ l := by
    intro l hm
    split at hm
    · rcases List.mem_append.mp hm with hm | hm
      · exact hm
      · simp at hm
    · exact hm
  have hbase : "java.lang.Object" ∈ superTypeStrs.filterMap (fun st =>
      if st.name = "java.lang.Object" ∧ superTypeStrs.length > 1 then none
      else some (toAnnotatedType fuel packageName classesDone false st)) := by
    have hmem2 : "java.lang.Object" ∈
        (if classNameDotted = "java.lang.Throwable" then
          (if classTypeVars.isEmpty then
            superTypeStrs.filterMap (fun st =>
              if st.name = "java.lang.Object" ∧ superTypeStrs.length > 1 then none
              else some (toAnnotatedType fuel packageName classesDone false st))
          else
            superTypeStrs.filterMap (fun st =>
              if st.name = "java.lang.Object" ∧ superTypeStrs.length > 1 then none
              else some (toAnnotatedType fuel packageName classesDone false st)) ++
            ["typing.Generic[" ++
              (joinSep ", " (classTypeVars.map (fun tv => tv.pythonName)) ++ "]")]) ++
          ["builtins.Exception"]
        else
          (if classTypeVars.isEmpty then
            superTypeStrs.filterMap (fun st =>
              if st.name = "java.lang.Object" ∧ superTypeStrs.length > 1 then none
              else some (toAnnotatedType fuel packageName classesDone false st))
          else
            superTypeStrs.filterMap (fun st =>
              if st.name = "java.lang.Object" ∧ superTypeStrs.length > 1 then none
              else some (toAnnotatedType fuel packageName classesDone false st)) ++
            ["typing.Generic[" ++
              (joinSep ", " (classTypeVars.map (fun tv => tv.pythonName)) ++ "]")])) :=
      hmem
    exact hpeel _ (hexc _ hmem2)
  rcases List.mem_filterMap.mp hbase with ⟨st, hst, hf⟩
  split at hf
  · cases hf
  · rename_i hcond
    injection hf with hf
    have hname : st.name = "java.lang.Object" := hr st hst hf
    have hlen : ¬ (superTypeStrs.length > 1) := fun hl => hcond ⟨hname, hl⟩
    have hpos : 0 < superTypeStrs.length := List.length_pos.mpr
      (fun hnil => by subst hnil; cases hst)
    have hone : superTypeStrs.length = 1 := by omega
    rcases List.length_eq_one.mp hone with ⟨a, ha⟩
    subst ha
    exact ⟨a, rfl, (List.mem_singleton.mp hst) ▸ hname⟩

/-- C4. Under the stated rendering hypothesis (no supertype other than
`java.lang.Object` itself renders to the text `java.lang.Object`; true of
every real Java class name), the rendered supertype list never contains
`java.lang.Object` when the parsed list has two or more entries, and
`java.lang.Object` appears in the rendered list only when it is the sole
parsed supertype. -/
theorem c4_object_dropped_from_supertypes (fuel : Nat) (packageName : String) (classesDone : List String)
    (superTypeStrs : List TypeStr) (classTypeVars : List TypeVarStr)
    (classNameDotted : String)
    (hr : ∀ st ∈ superTypeStrs,
      toAnnotatedType fuel packageName classesDone false st = "java.lang.Object" →
      st.name = "java.lang.Object") :
    (2 ≤ superTypeStrs.length →
      "java.lang.Object" ∉ superTypeAnnotations fuel packageName classesDone
        superTypeStrs classTypeVars classNameDotted) ∧
    ("java.lang.Object" ∈ superTypeAnnotations fuel packageName classesDone
        superTypeStrs classTypeVars classNameDotted →
      ∃ st, superTypeStrs = [st] ∧ st.name = "java.lang.Object") := by
  refine ⟨?_, c4_part2 fuel packageName classesDone superTypeStrs classTypeVars
    classNameDotted hr⟩
  intro h2 hmem
  rcases c4_part2 fuel packageName classesDone superTypeStrs classTypeVars
    classNameDotted hr hmem with ⟨st, hst, -⟩
  rw [hst] at h2
  simp at h2

/-- Witness for C4: with parsed supertypes `[java.lang.Object,
java.util.List]` the rendered list does not contain `java.lang.Object`. -/
theorem c4_object_dropped_from_supertypes_witness :
    "java.lang.Object" ∉ superTypeAnnotations 8 "com.x" []
      [TypeStr.mk "java.lang.Object" none, TypeStr.mk "java.util.List" none]
      [] "Foo" :=
  (c4_object_dropped_from_supertypes 8 "com.x" []
    [TypeStr.mk "java.lang.Object" none, TypeStr.mk "java.util.List" none]
    [] "Foo"
    (by
      intro st hst hrend
      rcases List.mem_cons.mp hst with rfl | hst
      · rfl
      · rcases List.mem_cons.mp hst with rfl | hst
        · exact absurd hrend (by decide)
        · cases hst)).1 (by decide)

theorem substTypeStr_nil_id (fuel : Nat) : ∀ t : TypeStr, substTypeStr fuel [] t = t := by
  induction fuel with
  | zero => intro t; rfl
  | succ f ih =>
    intro t
    obtain ⟨nm, targs⟩ := t
    cases targs with
    | none => rfl
    | some l =>
      cases l with
      | nil => rfl
      | cons a as1 =>
        have hred : substTypeStr (f + 1) [] (TypeStr.mk nm (some (a :: as1))) =
            TypeStr.mk nm (some ((a :: as1).map (substTypeStr f []))) := rfl
        rw [hred, List.map_congr_left (fun x _ => ih x)]
        simp only [List.map_id']

theorem lookupAssoc_append {α : Type} (a b : List (String × α)) (k : String) :
    lookupAssoc (a ++ b) k = (lookupAssoc a k).or (lookupAssoc b k) := by
  unfold lookupAssoc
  rw [List.find?_append]
  cases List.find? (fun kv => kv.1 == k) a <;> simp

theorem updateAssoc_eq_append {α : Type} (s : List (String × α)) (k : String) (v : α)
    (h : lookupAssoc s k = none) : updateAssoc s k v = s ++ [(k, v)] := by
  induction s with
  | nil => rfl
  | cons kv rest ih =>
    rw [lookupAssoc_cons] at h
    split at h
    · cases h
    · rename_i hne
      simp only [updateAssoc, if_neg hne]
      rw [ih h]
      rfl

theorem elim_fold_spec (counts : String → Nat) :
    ∀ (tvs : List TypeVarStr) (s0 : List (String × TypeStr)) (k0 : List TypeVarStr),
      (∀ tv ∈ tvs, lookupAssoc s0 tv.pythonName = none) →
      (tvs.map (fun tv => tv.pythonName)).Nodup →
      tvs.foldl (fun (p : List (String × TypeStr) × List TypeVarStr) tv =>
        if counts tv.pythonName ≤ 1 then
          (updateAssoc p.1 tv.pythonName
            (tv.bound.getD (TypeStr.mk "java.lang.Object" none)), p.2)
        else (p.1, p.2 ++ [tv])) (s0, k0) =
      (s0 ++ (tvs.filter (fun tv => counts tv.pythonName ≤ 1)).map
          (fun tv => (tv.pythonName, tv.bound.getD (TypeStr.mk "java.lang.Object" none))),
       k0 ++ tvs.filter (fun tv => ¬ (counts tv.pythonName ≤ 1))) := by
  intro tvs
  induction tvs with
  | nil => intro s0 k0 _ _; simp
  | cons tv rest ih =>
    intro s0 k0 hfresh hnd
    rw [List.foldl_cons]
    rw [List.map_cons] at hnd
    have hnd2 := hnd.of_cons
    have htvrest : ∀ tv2 ∈ rest, tv2.pythonName ≠ tv.pythonName := by
      intro tv2 h2 heq
      exact (List.nodup_cons.mp hnd).1 (heq ▸ List.mem_map_of_mem _ h2)
    by_cases hc : counts tv.pythonName ≤ 1
    · rw [if_pos hc]
      have hupd := updateAssoc_eq_append s0 tv.pythonName
        (tv.bound.getD (TypeStr.mk "java.lang.Object" none))
        (hfresh tv (List.mem_cons_self _ _))
      rw [hupd]
      have hfresh2 : ∀ tv2 ∈ rest,
          lookupAssoc (s0 ++ [(tv.pythonName,
            tv.bound.getD (TypeStr.mk "java.lang.Object" none))]) tv2.pythonName = none := by
        intro tv2 h2
        rw [lookupAssoc_append, hfresh tv2 (List.mem_cons_of_mem _ h2)]
        rw [lookupAssoc_cons]
        rw [if_neg (fun hh => htvrest tv2 h2 hh.symm)]
        rfl
      rw [ih _ k0 hfresh2 hnd2]
      rw [List.filter_cons_of_pos (by simpa using hc),
        List.filter_cons_of_neg (by simpa using hc)]
      simp [List.append_assoc]
    · rw [if_neg hc]
      have hfresh2 : ∀ tv2 ∈ rest, lookupAssoc s0 tv2.pythonName = none :=
        fun tv2 h2 => hfresh tv2 (List.mem_cons_of_mem _ h2)
      rw [ih _ (k0 ++ [tv]) hfresh2 hnd2]
      rw [List.filter_cons_of_neg (by simpa using hc),
        List.filter_cons_of_pos (by simpa using hc)]
      simp [List.append_assoc]

/-- C3. `_eliminate_single_use_type_vars` keeps exactly the method-scoped
type variables whose recursive occurrence count over all parameter types and
the return type is at least 2 (their occurrences are untouched, since the
substitution map binds no kept variable), and replaces every variable with
count at most 1, everywhere it occurs, by its bound — `java.lang.Object`
when it has none (the `elimSubs` map).  The hypothesis that the mangled
python names are pairwise distinct always holds for names produced by
`make_type_vars` from one prelude. -/
theorem c3_single_use_type_var_elimination (fuel : Nat) (tvs : List TypeVarStr) (params : List TypeStr)
    (ret : TypeStr)
    (hnd : (tvs.map (fun tv => tv.pythonName)).Nodup) :
    eliminateSingleUseTypeVars fuel tvs params ret =
      (tvs.filter (fun tv => 2 ≤ methodTvCounts fuel tvs params ret tv.pythonName),
       params.map (substTypeStr fuel (elimSubs fuel tvs params ret)),
       substTypeStr fuel (elimSubs fuel tvs params ret) ret) := by
  simp only [eliminateSingleUseTypeVars]
  rw [elim_fold_spec (methodTvCounts fuel tvs params ret) tvs [] []
    (fun tv _ => rfl) hnd]
  simp only [List.nil_append]
  have helim : elimSubs fuel tvs params ret =
      (tvs.filter (fun tv => methodTvCounts fuel tvs params ret tv.pythonName ≤ 1)).map
        (fun tv => (tv.pythonName,
          tv.bound.getD (TypeStr.mk "java.lang.Object" none))) := rfl
  have hfiltcongr :
      tvs.filter (fun tv => ¬ (methodTvCounts fuel tvs params ret tv.pythonName ≤ 1)) =
      tvs.filter (fun tv => 2 ≤ methodTvCounts fuel tvs params ret tv.pythonName) := by
    apply List.filter_congr
    intro tv _
    have : (¬ (methodTvCounts fuel tvs params ret tv.pythonName ≤ 1)) ↔
        (2 ≤ methodTvCounts fuel tvs params ret tv.pythonName) := by omega
    exact decide_eq_decide.mpr this
  cases hsubs : (tvs.filter
      (fun tv => methodTvCounts fuel tvs params ret tv.pythonName ≤ 1)).map
      (fun tv => (tv.pythonName,
        tv.bound.getD (TypeStr.mk "java.lang.Object" none))) with
  | nil =>
    simp only []
    have hel : elimSubs fuel tvs params ret = [] := by rw [helim, hsubs]
    rw [hel]
    have hfilt : tvs.filter
        (fun tv => methodTvCounts fuel tvs params ret tv.pythonName ≤ 1) = [] :=
      List.map_eq_nil_iff.mp hsubs
    have hall : ∀ tv ∈ tvs,
        ¬ (methodTvCounts fuel tvs params ret tv.pythonName ≤ 1) := by
      intro tv htv
      have := List.filter_eq_nil_iff.mp hfilt tv htv
      simpa using this
    have hkeep : tvs.filter
        (fun tv => 2 ≤ methodTvCounts fuel tvs params ret tv.pythonName) = tvs := by
      apply List.filter_eq_self.mpr
      intro tv htv
      have := hall tv htv
      simp only [decide_eq_true_eq]
      omega
    rw [hkeep]
    rw [List.map_congr_left (fun p _ => substTypeStr_nil_id fuel p),
      List.map_id', substTypeStr_nil_id]
  | cons hd tl =>
    simp only []
    rw [helim, hsubs, hfiltcongr]

/-- Witness for C3: `T` occurs twice and is kept unchanged; `U` occurs never
and is eliminated. -/
theorem c3_single_use_type_var_elimination_witness :
    eliminateSingleUseTypeVars 8
      [TypeVarStr.mk "T" "_m__T" none, TypeVarStr.mk "U" "_m__U" none]
      [TypeStr.mk "_m__T" none, TypeStr.mk "_m__T" none]
      (TypeStr.mk "java.lang.Object" none) =
    ([TypeVarStr.mk "T" "_m__T" none, TypeVarStr.mk "U" "_m__U" none].filter
        (fun tv => 2 ≤ methodTvCounts 8
          [TypeVarStr.mk "T" "_m__T" none, TypeVarStr.mk "U" "_m__U" none]
          [TypeStr.mk "_m__T" none, TypeStr.mk "_m__T" none]
          (TypeStr.mk "java.lang.Object" none) tv.pythonName),
     [TypeStr.mk "_m__T" none, TypeStr.mk "_m__T" none].map
       (substTypeStr 8 (elimSubs 8
          [TypeVarStr.mk "T" "_m__T" none, TypeVarStr.mk "U" "_m__U" none]
          [TypeStr.mk "_m__T" none, TypeStr.mk "_m__T" none]
          (TypeStr.mk "java.lang.Object" none))),
     substTypeStr 8 (elimSubs 8
          [TypeVarStr.mk "T" "_m__T" none, TypeVarStr.mk "U" "_m__U" none]
          [TypeStr.mk "_m__T" none, TypeStr.mk "_m__T" none]
          (TypeStr.mk "java.lang.Object" none))
       (TypeStr.mk "java.lang.Object" none)) :=
  c3_single_use_type_var_elimination 8
    [TypeVarStr.mk "T" "_m__T" none, TypeVarStr.mk "U" "_m__U" none]
    [TypeStr.mk "_m__T" none, TypeStr.mk "_m__T" none]
    (TypeStr.mk "java.lang.Object" none) (by decide)

theorem takeUntil_append (p : Char → Bool) :
    ∀ (l1 l2 : List Char), (∀ c ∈ l1, p c = false) →
      (match l2 with | [] => True | c :: _ => p c = true) →
      takeUntil p (l1 ++ l2) = (l1, l2) := by
  intro l1
  induction l1 with
  | nil =>
    intro l2 _ h2
    cases l2 with
    | nil => rfl
    | cons c r => simp [takeUntil, h2]
  | cons c l1t ih =>
    intro l2 h1 h2
    have hc : p c = false := h1 c (List.mem_cons_self _ _)
    simp only [List.cons_append, takeUntil, hc, Bool.false_eq_true, if_false,
      List.append_eq]
    rw [ih l2 (fun x hx => h1 x (List.mem_cons_of_mem _ hx)) h2]
/-- With the argument flag clear, the name translator never raises: the
raise needs both the argument and the array-parameter flag. -/
theorem translateTypeName_notArg_isSome (n : String)
    (args : Option (List TypeStr)) (b c : Bool) :
    ∃ t, translateTypeName n args false b c = some t := by
  cases h : translateTypeName n args false b c with
  | some t => exact ⟨t, rfl⟩
  | none =>
    unfold translateTypeName at h
    cases hc : collectImplicitUnion n args false b c with
    | some u => rw [hc] at h; simp at h
    | none =>
      have h2 := (collectImplicitUnion_eq_none_iff n args false b c).mp hc
      simp at h2

/-- The translator's result at non-argument positions as a total function
(`translateTypeName` is `some` there). -/
def translateTotal (n : String) (args : Option (List TypeStr)) (b c : Bool) :
    TypeStr :=
  (translateTypeName n args false b c).getD (TypeStr.mk n args)

theorem translateTypeName_notArg_eq (n : String) (args : Option (List TypeStr))
    (b c : Bool) :
    translateTypeName n args false b c = some (translateTotal n args b c) := by
  obtain ⟨t, ht⟩ := translateTypeName_notArg_isSome n args b c
  unfold translateTotal
  rw [ht]
  rfl

/-- JVM reference-type signatures as they occur in a type-parameter bound
or type argument (JVMS 4.7.9.1): type variables `T…;`, primitive
descriptors (as array elements), wildcards `*`/`+…`/`-…`, arrays `[…`,
and object types `L name (<args>)? (.Inner(<args>)?)* ;`.  Type-argument
lists (`anil`/`acons`) and inner-class-suffix chains
(`inil`/`icons0`/`iconsA`) are encoded by dedicated constructors so the
whole grammar forms one plain inductive type. -/
inductive JSig where
  | tvar : String → JSig
  | jprim : Char → JSig
  | star : JSig
  | ext : JSig → JSig
  | sup : JSig → JSig
  | arr : JSig → JSig
  | cls0 : String → JSig → JSig
  | clsA : String → JSig → JSig → JSig
  | anil : JSig
  | acons : JSig → JSig → JSig
  | inil : JSig
  | icons0 : String → JSig → JSig
  | iconsA : String → JSig → JSig → JSig
deriving DecidableEq, Repr

/-- Render a signature node back to its JVM signature text. -/
def renderS : JSig → List Char
  | .tvar nm => 'T' :: (nm.data ++ [';'])
  | .jprim c => [c]
  | .star => ['*']
  | .ext s => '+' :: renderS s
  | .sup s => '-' :: renderS s
  | .arr e => '[' :: renderS e
  | .cls0 nm inners => 'L' :: (nm.data ++ (renderS inners ++ [';']))
  | .clsA nm args inners =>
      'L' :: (nm.data ++ ('<' :: (renderS args ++ '>' :: (renderS inners ++ [';']))))
  | .anil => []
  | .acons a l => renderS a ++ renderS l
  | .inil => []
  | .icons0 nm rest => '.' :: (nm.data ++ renderS rest)
  | .iconsA nm args rest =>
      '.' :: (nm.data ++ ('<' :: (renderS args ++ '>' :: renderS rest)))

/-- A JVM identifier as the signature grammar allows it: free of the
structural characters `<`, `>`, `;`, `.`, `:` (JVMS 4.2.2). -/
def goodName (nm : String) : Bool :=
  nm.data.all (fun ch => !(ch = '<' || ch = '>' || ch = ';' || ch = '.' || ch = ':'))

mutual

/-- Well-formedness of a signature node. -/
def wfSig : JSig → Bool
  | .tvar nm => goodName nm
  | .jprim c => (primitiveDescName c).isSome
  | .star => true
  | .ext s => wfSig s
  | .sup s => wfSig s
  | .arr e => wfSig e
  | .cls0 nm inners => goodName nm && wfInn inners
  | .clsA nm args inners => goodName nm && wfArgs args && wfInn inners
  | _ => false

/-- Well-formedness of a type-argument-list node. -/
def wfArgs : JSig → Bool
  | .anil => true
  | .acons a l => wfSig a && wfArgs l
  | _ => false

/-- Well-formedness of an inner-class-suffix chain node. -/
def wfInn : JSig → Bool
  | .inil => true
  | .icons0 nm rest => goodName nm && wfInn rest
  | .iconsA nm args rest => goodName nm && wfArgs args && wfInn rest
  | _ => false

end

/-- Number of elements of a type-argument-list node. -/
def lenArgs : JSig → Nat
  | .acons _ l => lenArgs l + 1
  | _ => 0

/-- Number of suffixes of an inner-class-suffix chain. -/
def countInn : JSig → Nat
  | .icons0 _ r => countInn r + 1
  | .iconsA _ _ r => countInn r + 1
  | _ => 0

mutual

/-- Fuel sufficient for `parseTypeSig` on a rendered signature. -/
def fuelS : JSig → Nat
  | .tvar _ => 1
  | .jprim _ => 1
  | .star => 1
  | .ext s => fuelS s + 1
  | .sup s => fuelS s + 1
  | .arr e => fuelS e + 1
  | .cls0 _ inners => countInn inners + 1
  | .clsA _ args inners =>
      max (max (lenArgs args) (fuelArgs args)) (countInn inners) + 1
  | _ => 0

/-- Fuel sufficient for parsing each element of a type-argument list. -/
def fuelArgs : JSig → Nat
  | .acons a l => max (fuelS a) (fuelArgs l)
  | _ => 0

end

mutual

/-- The `TypeStr` that `_parse_type_signature` produces for a rendered
signature, given the array-parameter and type-argument flags of the
position (the argument flag is clear at and below every bound). -/
def denoteS : JSig → Bool → Bool → TypeStr
  | .tvar nm, _, _ => TypeStr.mk nm none
  | .jprim ch, b, c => translateTotal ((primitiveDescName ch).getD "") none b c
  | .star, _, _ => TypeStr.mk "java.lang.Object" none
  | .ext s, _, _ => denoteS s false false
  | .sup s, _, _ => denoteS s false false
  | .arr e, _, _ =>
      (match parameterToArrayType (denoteS e true false).name with
       | some arrName => TypeStr.mk arrName none
       | none => TypeStr.mk "java.chaquopy.JavaArray" (some [denoteS e true false]))
  | .cls0 nm _, b, c => translateTotal (internalToDottedRaw nm) none b c
  | .clsA nm args _, b, c =>
      translateTotal (internalToDottedRaw nm) (some (denoteArgs args)) b c
  | _, _, _ => TypeStr.mk "" none

/-- The list of `TypeStr`s parsed from a type-argument-list node. -/
def denoteArgs : JSig → List TypeStr
  | .acons a l => denoteS a false true :: denoteArgs l
  | _ => []

end

theorem goodName_spec {nm : String} (h : goodName nm = true) :
    ∀ ch ∈ nm.data, ch ≠ '<' ∧ ch ≠ '>' ∧ ch ≠ ';' ∧ ch ≠ '.' ∧ ch ≠ ':' := by
  intro ch hch
  have h2 := List.all_eq_true.mp h ch hch
  simp only [Bool.not_eq_true', Bool.or_eq_false_iff, decide_eq_false_iff_not] at h2
  exact ⟨h2.1.1.1.1, h2.1.1.1.2, h2.1.1.2, h2.1.2, h2.2⟩

theorem primDesc_char_facts {c : Char} (h : (primitiveDescName c).isSome = true) :
    c ≠ '<' ∧ c ≠ '>' ∧ c ≠ ';' ∧ c ≠ '.' ∧ c ≠ ':' := by
  refine ⟨?_, ?_, ?_, ?_, ?_⟩ <;>
    (intro he; subst he; exact absurd h (by decide))

theorem skipBalanced_chars (l : List Char)
    (h : ∀ ch ∈ l, ch ≠ '<' ∧ ch ≠ '>') :
    ∀ d t, skipBalanced (d + 1) (l ++ t) = skipBalanced (d + 1) t := by
  induction l with
  | nil => intro d t; rfl
  | cons c r ih =>
    intro d t
    have hc := h c (List.mem_cons_self _ _)
    simp only [List.cons_append, skipBalanced, if_neg hc.1, if_neg hc.2]
    exact ih (fun x hx => h x (List.mem_cons_of_mem _ hx)) d t

/-- A well-formed inner-suffix chain renders to the empty list or to a
list starting with a dot. -/
theorem innersRender_shape {inners : JSig} (h : wfInn inners = true) :
    renderS inners = [] ∨ ∃ r, renderS inners = '.' :: r := by
  cases inners <;> simp [wfInn] at h <;> simp [renderS]

/-- A well-formed signature node renders to a list whose head is none of
the delimiter characters the surrounding scans stop at. -/
theorem renderS_head {s : JSig} (h : wfSig s = true) :
    ∃ c0 r, renderS s = c0 :: r ∧ c0 ≠ '<' ∧ c0 ≠ '>' ∧ c0 ≠ ';' ∧
      c0 ≠ '.' ∧ c0 ≠ ':' := by
  cases s with
  | tvar nm => exact ⟨'T', _, rfl, by decide, by decide, by decide, by decide, by decide⟩
  | jprim c =>
    have hf := primDesc_char_facts (by simpa [wfSig] using h)
    exact ⟨c, [], rfl, hf.1, hf.2.1, hf.2.2.1, hf.2.2.2.1, hf.2.2.2.2⟩
  | star => exact ⟨'*', _, rfl, by decide, by decide, by decide, by decide, by decide⟩
  | ext s => exact ⟨'+', _, rfl, by decide, by decide, by decide, by decide, by decide⟩
  | sup s => exact ⟨'-', _, rfl, by decide, by decide, by decide, by decide, by decide⟩
  | arr e => exact ⟨'[', _, rfl, by decide, by decide, by decide, by decide, by decide⟩
  | cls0 nm inners =>
    exact ⟨'L', _, rfl, by decide, by decide, by decide, by decide, by decide⟩
  | clsA nm args inners =>
    exact ⟨'L', _, rfl, by decide, by decide, by decide, by decide, by decide⟩
  | anil => simp [wfSig] at h
  | acons a l => simp [wfSig] at h
  | inil => simp [wfSig] at h
  | icons0 nm r => simp [wfSig] at h
  | iconsA nm args r => simp [wfSig] at h

/-- Rendered well-formed nodes are transparent to the balanced-`<>` skip:
every `<` they contain is matched by a later `>`. -/
theorem skipBalanced_render :
    ∀ s : JSig, (wfSig s || wfArgs s || wfInn s) = true →
      ∀ d t, skipBalanced (d + 1) (renderS s ++ t) = skipBalanced (d + 1) t := by
  intro s
  induction s with
  | tvar nm =>
    intro h d t
    have hg : goodName nm = true := by simpa [wfSig, wfArgs, wfInn] using h
    simp only [renderS, List.cons_append, List.append_assoc, List.singleton_append,
      List.nil_append]
    rw [show skipBalanced (d + 1) ('T' :: (nm.data ++ ';' :: t)) =
      skipBalanced (d + 1) (nm.data ++ ';' :: t) from by
        simp [skipBalanced]]
    rw [skipBalanced_chars nm.data
      (fun ch hch => ⟨(goodName_spec hg ch hch).1, (goodName_spec hg ch hch).2.1⟩)]
    simp [skipBalanced]
  | jprim c =>
    intro h d t
    have hf := primDesc_char_facts (by simpa [wfSig, wfArgs, wfInn] using h)
    simp only [renderS, List.singleton_append]
    simp [skipBalanced, hf.1, hf.2.1]
  | star =>
    intro h d t
    simp [renderS, skipBalanced]
  | ext s ih =>
    intro h d t
    have hs : wfSig s = true := by simpa [wfSig, wfArgs, wfInn] using h
    simp only [renderS, List.cons_append]
    rw [show skipBalanced (d + 1) ('+' :: (renderS s ++ t)) =
      skipBalanced (d + 1) (renderS s ++ t) from by simp [skipBalanced]]
    exact ih (by simp [hs]) d t
  | sup s ih =>
    intro h d t
    have hs : wfSig s = true := by simpa [wfSig, wfArgs, wfInn] using h
    simp only [renderS, List.cons_append]
    rw [show skipBalanced (d + 1) ('-' :: (renderS s ++ t)) =
      skipBalanced (d + 1) (renderS s ++ t) from by simp [skipBalanced]]
    exact ih (by simp [hs]) d t
  | arr e ih =>
    intro h d t
    have hs : wfSig e = true := by simpa [wfSig, wfArgs, wfInn] using h
    simp only [renderS, List.cons_append]
    rw [show skipBalanced (d + 1) ('[' :: (renderS e ++ t)) =
      skipBalanced (d + 1) (renderS e ++ t) from by simp [skipBalanced]]
    exact ih (by simp [hs]) d t
  | cls0 nm inners ih =>
    intro h d t
    have h2 : goodName nm = true ∧ wfInn inners = true := by
      simpa [wfSig, wfArgs, wfInn] using h
    simp only [renderS, List.cons_append, List.append_assoc, List.singleton_append,
      List.nil_append]
    rw [show skipBalanced (d + 1) ('L' :: (nm.data ++ (renderS inners ++ ';' :: t))) =
      skipBalanced (d + 1) (nm.data ++ (renderS inners ++ ';' :: t)) from by
        simp [skipBalanced]]
    rw [skipBalanced_chars nm.data
      (fun ch hch => ⟨(goodName_spec h2.1 ch hch).1, (goodName_spec h2.1 ch hch).2.1⟩)]
    rw [ih (by simp [h2.2])]
    simp [skipBalanced]
  | clsA nm args inners iha ihi =>
    intro h d t
    have h2 : goodName nm = true ∧ wfArgs args = true ∧ wfInn inners = true := by
      simpa [wfSig, wfArgs, wfInn, and_assoc] using h
    simp only [renderS, List.cons_append, List.append_assoc, List.singleton_append,
      List.nil_append]
    rw [show skipBalanced (d + 1)
        ('L' :: (nm.data ++ ('<' :: (renderS args ++ '>' :: (renderS inners ++ ';' :: t))))) =
      skipBalanced (d + 1)
        (nm.data ++ ('<' :: (renderS args ++ '>' :: (renderS inners ++ ';' :: t)))) from by
        simp [skipBalanced]]
    rw [skipBalanced_chars nm.data
      (fun ch hch => ⟨(goodName_spec h2.1 ch hch).1, (goodName_spec h2.1 ch hch).2.1⟩)]
    rw [show skipBalanced (d + 1)
        ('<' :: (renderS args ++ '>' :: (renderS inners ++ ';' :: t))) =
      skipBalanced (d + 2) (renderS args ++ '>' :: (renderS inners ++ ';' :: t)) from by
        simp [skipBalanced]]
    rw [iha (by simp [h2.2.1]) (d + 1)]
    rw [show skipBalanced (d + 2) ('>' :: (renderS inners ++ ';' :: t)) =
      skipBalanced (d + 1) (renderS inners ++ ';' :: t) from by simp [skipBalanced]]
    rw [ihi (by simp [h2.2.2])]
    simp [skipBalanced]
  | anil =>
    intro _ d t
    simp [renderS]
  | acons a l iha ihl =>
    intro h d t
    have h2 : wfSig a = true ∧ wfArgs l = true := by
      simpa [wfSig, wfArgs, wfInn] using h
    simp only [renderS, List.append_assoc]
    rw [iha (by simp [h2.1]), ihl (by simp [h2.2])]
  | inil =>
    intro _ d t
    simp [renderS]
  | icons0 nm rest ih =>
    intro h d t
    have h2 : goodName nm = true ∧ wfInn rest = true := by
      simpa [wfSig, wfArgs, wfInn] using h
    simp only [renderS, List.cons_append, List.append_assoc]
    rw [show skipBalanced (d + 1) ('.' :: (nm.data ++ (renderS rest ++ t))) =
      skipBalanced (d + 1) (nm.data ++ (renderS rest ++ t)) from by simp [skipBalanced]]
    rw [skipBalanced_chars nm.data
      (fun ch hch => ⟨(goodName_spec h2.1 ch hch).1, (goodName_spec h2.1 ch hch).2.1⟩)]
    exact ih (by simp [h2.2]) d t
  | iconsA nm args rest iha ihr =>
    intro h d t
    have h2 : goodName nm = true ∧ wfArgs args = true ∧ wfInn rest = true := by
      simpa [wfSig, wfArgs, wfInn, and_assoc] using h
    simp only [renderS, List.cons_append, List.append_assoc]
    rw [show skipBalanced (d + 1)
        ('.' :: (nm.data ++ ('<' :: (renderS args ++ '>' :: (renderS rest ++ t))))) =
      skipBalanced (d + 1)
        (nm.data ++ ('<' :: (renderS args ++ '>' :: (renderS rest ++ t)))) from by
        simp [skipBalanced]]
    rw [skipBalanced_chars nm.data
      (fun ch hch => ⟨(goodName_spec h2.1 ch hch).1, (goodName_spec h2.1 ch hch).2.1⟩)]
    rw [show skipBalanced (d + 1) ('<' :: (renderS args ++ '>' :: (renderS rest ++ t))) =
      skipBalanced (d + 2) (renderS args ++ '>' :: (renderS rest ++ t)) from by
        simp [skipBalanced]]
    rw [iha (by simp [h2.2.1]) (d + 1)]
    rw [show skipBalanced (d + 2) ('>' :: (renderS rest ++ t)) =
      skipBalanced (d + 1) (renderS rest ++ t) from by simp [skipBalanced]]
    exact ihr (by simp [h2.2.2]) d t

theorem goodName_stops {nm : String} (h : goodName nm = true) :
    ∀ ch ∈ nm.data, ((ch = '<' || ch = ';' || ch = '.') = false) := by
  intro ch hch
  obtain ⟨h1, _, h3, h4, _⟩ := goodName_spec h ch hch
  simp [h1, h3, h4]

theorem parseTypeSig_T (F : Nat) (tvs : List TypeVarStr) (a b c : Bool)
    (rest : List Char) :
    parseTypeSig (F + 1) tvs a b c ('T' :: rest) =
      (let sp := takeUntil (fun ch => ch = ';') rest
       match sp.2 with
       | [] => none
       | _ :: r2 =>
         let varName := String.mk sp.1
         match tvs.find? (fun tv => tv.javaName == varName) with
         | some tv => some (TypeStr.mk tv.pythonName none, r2)
         | none => some (TypeStr.mk varName none, r2)) := rfl

theorem parseTypeSig_plus (F : Nat) (tvs : List TypeVarStr) (a b c : Bool)
    (rest : List Char) :
    parseTypeSig (F + 1) tvs a b c ('+' :: rest) =
      parseTypeSig F tvs false false false rest := rfl

theorem parseTypeSig_minus (F : Nat) (tvs : List TypeVarStr) (a b c : Bool)
    (rest : List Char) :
    parseTypeSig (F + 1) tvs a b c ('-' :: rest) =
      parseTypeSig F tvs false false false rest := rfl

theorem parseTypeSig_arrStep (F : Nat) (tvs : List TypeVarStr) (a b c : Bool)
    (rest : List Char) :
    parseTypeSig (F + 1) tvs a b c ('[' :: rest) =
      (match parseTypeSig F tvs false true false rest with
       | none => none
       | some (elem, r) =>
         match parameterToArrayType elem.name with
         | some arrName => some (TypeStr.mk arrName none, r)
         | none => some (TypeStr.mk "java.chaquopy.JavaArray" (some [elem]), r)) := rfl

theorem parseTypeSig_L (F : Nat) (tvs : List TypeVarStr) (a b c : Bool)
    (rest : List Char) :
    parseTypeSig (F + 1) tvs a b c ('L' :: rest) =
      (let sp := takeUntil (fun ch => ch = '<' || ch = ';' || ch = '.') rest
       let className := internalToDottedRaw (String.mk sp.1)
       let argsStep : Option (Option (List TypeStr) × List Char) :=
         match sp.2 with
         | '<' :: r1 =>
           match parseSeqUntil (fun cs2 => parseTypeSig F tvs false false true cs2)
               '>' F r1 [] with
           | none => none
           | some (as1, r2) => some (some as1, r2)
         | r1 => some (none, r1)
       match argsStep with
       | none => none
       | some (typeArgs, r2) =>
         match skipInnerSuffix F r2 with
         | none => none
         | some r3 =>
           match r3 with
           | ';' :: r4 =>
             (translateTypeName className typeArgs a b c).map (fun t => (t, r4))
           | _ => none) := rfl

theorem parseSeqUntil_stop (p : List Char → Option (TypeStr × List Char))
    (stop : Char) (f : Nat) (rest : List Char) (acc : List TypeStr) :
    parseSeqUntil p stop f (stop :: rest) acc = some (acc.reverse, rest) := by
  cases f <;> simp [parseSeqUntil]

theorem parseSeqUntil_cons (p : List Char → Option (TypeStr × List Char))
    (stop : Char) (f : Nat) (c : Char) (rest : List Char) (acc : List TypeStr)
    (hc : ¬ c = stop) :
    parseSeqUntil p stop (f + 1) (c :: rest) acc =
      (match p (c :: rest) with
       | none => none
       | some (t, r) => parseSeqUntil p stop f r (t :: acc)) := by
  simp [parseSeqUntil, hc]

theorem skipInnerSuffix_nodot (f : Nat) (c : Char) (rest : List Char)
    (hc : ¬ c = '.') :
    skipInnerSuffix f (c :: rest) = some (c :: rest) := by
  cases f <;> simp [skipInnerSuffix, hc]

theorem skipInnerSuffix_dot (f : Nat) (rest : List Char) :
    skipInnerSuffix (f + 1) ('.' :: rest) =
      (let r1 := (takeUntil (fun ch => ch = '<' || ch = ';' || ch = '.') rest).2
       match r1 with
       | '<' :: r2 =>
         (match skipBalanced 1 r2 with
          | none => none
          | some r3 => skipInnerSuffix f r3)
       | _ => skipInnerSuffix f r1) := rfl

/-- Parse/render roundtrip for the signature grammar, jointly for the three
sorts of nodes: a rendered well-formed signature parses back (with enough
fuel, under any array-parameter/type-argument flags) to its denotation; a
rendered type-argument list is consumed by the element loop; a rendered
inner-class-suffix chain is consumed and discarded by the suffix skipper. -/
theorem jsigRoundtrip : ∀ s : JSig,
    (wfSig s = true → ∀ F, fuelS s ≤ F → ∀ b c t,
      parseTypeSig F [] false b c (renderS s ++ t) = some (denoteS s b c, t)) ∧
    (wfArgs s = true → ∀ F, fuelArgs s ≤ F → ∀ f, lenArgs s ≤ f → ∀ t acc,
      parseSeqUntil (fun cs => parseTypeSig F [] false false true cs) '>' f
        (renderS s ++ '>' :: t) acc = some (acc.reverse ++ denoteArgs s, t)) ∧
    (wfInn s = true → ∀ f, countInn s ≤ f → ∀ t,
      skipInnerSuffix f (renderS s ++ ';' :: t) = some (';' :: t)) := by
  intro s
  induction s with
  | tvar nm =>
    refine ⟨?_, ?_, ?_⟩
    · intro h F hF b c t
      have hg : goodName nm = true := by simpa [wfSig] using h
      obtain ⟨F', rfl⟩ : ∃ F', F = F' + 1 := ⟨F - 1, by simp [fuelS] at hF; omega⟩
      simp only [renderS, denoteS, List.cons_append, List.append_assoc,
        List.singleton_append, List.nil_append]
      rw [parseTypeSig_T]
      simp only []
      rw [takeUntil_append (fun ch => ch = ';') nm.data (';' :: t)
        (fun ch hch => decide_eq_false (goodName_spec hg ch hch).2.2.1) (by simp)]
      simp [List.find?]
    · intro h; simp [wfArgs] at h
    · intro h; simp [wfInn] at h
  | jprim ch =>
    refine ⟨?_, ?_, ?_⟩
    · intro h F hF b c t
      have hp : (primitiveDescName ch).isSome = true := by simpa [wfSig] using h
      obtain ⟨nm, hnm⟩ := Option.isSome_iff_exists.mp hp
      obtain ⟨F', rfl⟩ : ∃ F', F = F' + 1 := ⟨F - 1, by simp [fuelS] at hF; omega⟩
      simp only [renderS, denoteS, List.singleton_append]
      simp only [parseTypeSig, hnm]
      rw [translateTypeName_notArg_eq]
      simp [Option.getD]
    · intro h; simp [wfArgs] at h
    · intro h; simp [wfInn] at h
  | star =>
    refine ⟨?_, ?_, ?_⟩
    · intro h F hF b c t
      obtain ⟨F', rfl⟩ : ∃ F', F = F' + 1 := ⟨F - 1, by simp [fuelS] at hF; omega⟩
      rfl
    · intro h; simp [wfArgs] at h
    · intro h; simp [wfInn] at h
  | ext s ih =>
    refine ⟨?_, ?_, ?_⟩
    · intro h F hF b c t
      have hs : wfSig s = true := by simpa [wfSig] using h
      obtain ⟨F', rfl⟩ : ∃ F', F = F' + 1 := ⟨F - 1, by simp [fuelS] at hF; omega⟩
      have hF' : fuelS s ≤ F' := by simp [fuelS] at hF; omega
      simp only [renderS, denoteS, List.cons_append]
      rw [parseTypeSig_plus]
      exact ih.1 hs F' hF' false false t
    · intro h; simp [wfArgs] at h
    · intro h; simp [wfInn] at h
  | sup s ih =>
    refine ⟨?_, ?_, ?_⟩
    · intro h F hF b c t
      have hs : wfSig s = true := by simpa [wfSig] using h
      obtain ⟨F', rfl⟩ : ∃ F', F = F' + 1 := ⟨F - 1, by simp [fuelS] at hF; omega⟩
      have hF' : fuelS s ≤ F' := by simp [fuelS] at hF; omega
      simp only [renderS, denoteS, List.cons_append]
      rw [parseTypeSig_minus]
      exact ih.1 hs F' hF' false false t
    · intro h; simp [wfArgs] at h
    · intro h; simp [wfInn] at h
  | arr e ih =>
    refine ⟨?_, ?_, ?_⟩
    · intro h F hF b c t
      have hs : wfSig e = true := by simpa [wfSig] using h
      obtain ⟨F', rfl⟩ : ∃ F', F = F' + 1 := ⟨F - 1, by simp [fuelS] at hF; omega⟩
      have hF' : fuelS e ≤ F' := by simp [fuelS] at hF; omega
      simp only [renderS, denoteS, List.cons_append]
      rw [parseTypeSig_arrStep]
      rw [ih.1 hs F' hF' true false t]
      cases hpa : parameterToArrayType (denoteS e true false).name <;> simp [hpa]
    · intro h; simp [wfArgs] at h
    · intro h; simp [wfInn] at h
  | cls0 nm inners ih =>
    refine ⟨?_, ?_, ?_⟩
    · intro h F hF b c t
      have h2 : goodName nm = true ∧ wfInn inners = true := by
        simpa [wfSig] using h
      obtain ⟨F', rfl⟩ : ∃ F', F = F' + 1 := ⟨F - 1, by simp [fuelS] at hF; omega⟩
      have hcnt : countInn inners ≤ F' := by simp [fuelS] at hF; omega
      have hskip := ih.2.2 h2.2 F' hcnt t
      simp only [renderS, denoteS, List.cons_append, List.append_assoc,
        List.singleton_append, List.nil_append]
      rw [parseTypeSig_L]
      simp only []
      rw [takeUntil_append (fun ch => ch = '<' || ch = ';' || ch = '.') nm.data
        (renderS inners ++ ';' :: t) (goodName_stops h2.1)
        (by rcases innersRender_shape h2.2 with he | ⟨r, he⟩ <;> simp [he])]
      rcases innersRender_shape h2.2 with he | ⟨r, he⟩
      · rw [he, List.nil_append] at hskip ⊢
        simp [hskip, translateTypeName_notArg_eq]
      · rw [he, List.cons_append] at hskip ⊢
        simp [hskip, translateTypeName_notArg_eq]
    · intro h; simp [wfArgs] at h
    · intro h; simp [wfInn] at h
  | clsA nm args inners iha ihi =>
    refine ⟨?_, ?_, ?_⟩
    · intro h F hF b c t
      have h2 : goodName nm = true ∧ wfArgs args = true ∧ wfInn inners = true := by
        simpa [wfSig, and_assoc] using h
      obtain ⟨F', rfl⟩ : ∃ F', F = F' + 1 := ⟨F - 1, by simp [fuelS] at hF; omega⟩
      have hlen : lenArgs args ≤ F' := by simp [fuelS] at hF; omega
      have hfa : fuelArgs args ≤ F' := by simp [fuelS] at hF; omega
      have hcnt : countInn inners ≤ F' := by simp [fuelS] at hF; omega
      have hskip := ihi.2.2 h2.2.2 F' hcnt t
      have hargs := iha.2.1 h2.2.1 F' hfa F' hlen (renderS inners ++ ';' :: t) []
      simp only [renderS, denoteS, List.cons_append, List.append_assoc,
        List.singleton_append, List.nil_append]
      rw [parseTypeSig_L]
      simp only []
      rw [takeUntil_append (fun ch => ch = '<' || ch = ';' || ch = '.') nm.data
        ('<' :: (renderS args ++ '>' :: (renderS inners ++ ';' :: t)))
        (goodName_stops h2.1) (by simp)]
      simp [hargs, hskip, translateTypeName_notArg_eq]
    · intro h; simp [wfArgs] at h
    · intro h; simp [wfInn] at h
  | anil =>
    refine ⟨?_, ?_, ?_⟩
    · intro h; simp [wfSig] at h
    · intro _ F _ f _ t acc
      simp only [renderS, denoteArgs, List.nil_append]
      rw [parseSeqUntil_stop]
      simp
    · intro h; simp [wfInn] at h
  | acons a l iha ihl =>
    refine ⟨?_, ?_, ?_⟩
    · intro h; simp [wfSig] at h
    · intro h F hF f hf t acc
      have h2 : wfSig a = true ∧ wfArgs l = true := by simpa [wfArgs] using h
      have hfa : fuelS a ≤ F := by simp [fuelArgs] at hF; omega
      have hfl : fuelArgs l ≤ F := by simp [fuelArgs] at hF; omega
      obtain ⟨f', rfl⟩ : ∃ f', f = f' + 1 := ⟨f - 1, by simp [lenArgs] at hf; omega⟩
      have hlenl : lenArgs l ≤ f' := by simp [lenArgs] at hf; omega
      obtain ⟨c0, r0, hr, hne1, hne2, hne3, hne4, hne5⟩ := renderS_head h2.1
      simp only [renderS, denoteArgs, List.append_assoc]
      rw [hr, List.cons_append]
      rw [parseSeqUntil_cons _ _ _ _ _ _ hne2]
      rw [show c0 :: (r0 ++ (renderS l ++ '>' :: t)) =
        renderS a ++ (renderS l ++ '>' :: t) from by rw [hr]; simp]
      rw [iha.1 h2.1 F hfa false true (renderS l ++ '>' :: t)]
      simp only []
      rw [ihl.2.1 h2.2 F hfl f' hlenl t (denoteS a false true :: acc)]
      simp
    · intro h; simp [wfInn] at h
  | inil =>
    refine ⟨?_, ?_, ?_⟩
    · intro h; simp [wfSig] at h
    · intro h; simp [wfArgs] at h
    · intro _ f _ t
      simp only [renderS, List.nil_append]
      exact skipInnerSuffix_nodot f ';' t (by decide)
  | icons0 nm rest ih =>
    refine ⟨?_, ?_, ?_⟩
    · intro h; simp [wfSig] at h
    · intro h; simp [wfArgs] at h
    · intro h f hf t
      have h2 : goodName nm = true ∧ wfInn rest = true := by simpa [wfInn] using h
      obtain ⟨f', rfl⟩ : ∃ f', f = f' + 1 := ⟨f - 1, by simp [countInn] at hf; omega⟩
      have hcnt : countInn rest ≤ f' := by simp [countInn] at hf; omega
      have hskip := ih.2.2 h2.2 f' hcnt t
      simp only [renderS, List.cons_append, List.append_assoc]
      rw [skipInnerSuffix_dot]
      simp only []
      rw [takeUntil_append (fun ch => ch = '<' || ch = ';' || ch = '.') nm.data
        (renderS rest ++ ';' :: t) (goodName_stops h2.1)
        (by rcases innersRender_shape h2.2 with he | ⟨r, he⟩ <;> simp [he])]
      rcases innersRender_shape h2.2 with he | ⟨r, he⟩
      · rw [he, List.nil_append] at hskip ⊢
        simp [hskip]
      · rw [he, List.cons_append] at hskip ⊢
        simp [hskip]
  | iconsA nm args rest iha ihr =>
    refine ⟨?_, ?_, ?_⟩
    · intro h; simp [wfSig] at h
    · intro h; simp [wfArgs] at h
    · intro h f hf t
      have h2 : goodName nm = true ∧ wfArgs args = true ∧ wfInn rest = true := by
        simpa [wfInn, and_assoc] using h
      obtain ⟨f', rfl⟩ : ∃ f', f = f' + 1 := ⟨f - 1, by simp [countInn] at hf; omega⟩
      have hcnt : countInn rest ≤ f' := by simp [countInn] at hf; omega
      have hskip := ihr.2.2 h2.2.2 f' hcnt t
      simp only [renderS, List.cons_append, List.append_assoc]
      rw [skipInnerSuffix_dot]
      simp only []
      rw [takeUntil_append (fun ch => ch = '<' || ch = ';' || ch = '.') nm.data
        ('<' :: (renderS args ++ '>' :: (renderS rest ++ ';' :: t)))
        (goodName_stops h2.1) (by simp)]
      simp only []
      rw [show skipBalanced 1 (renderS args ++ '>' :: (renderS rest ++ ';' :: t)) =
        skipBalanced 1 ('>' :: (renderS rest ++ ';' :: t)) from
        skipBalanced_render args (by simp [h2.2.1]) 0 ('>' :: (renderS rest ++ ';' :: t))]
      rw [show skipBalanced 1 ('>' :: (renderS rest ++ ';' :: t)) =
        some (renderS rest ++ ';' :: t) from by simp [skipBalanced]]
      exact hskip

/-- Parse a rendered well-formed signature back to its denotation
(corollary of the joint roundtrip). -/
theorem parseTypeSig_renderS (s : JSig) (h : wfSig s = true) (F : Nat)
    (hF : fuelS s ≤ F) (b c : Bool) (t : List Char) :
    parseTypeSig F [] false b c (renderS s ++ t) = some (denoteS s b c, t) :=
  (jsigRoundtrip s).1 h F hF b c t

theorem skipIfaceBounds_nil (parse : List Char → Option (TypeStr × List Char))
    (fuel : Nat) : skipIfaceBounds parse fuel [] = some [] := by
  cases fuel <;> rfl

theorem skipIfaceBounds_stop (parse : List Char → Option (TypeStr × List Char))
    (fuel : Nat) (c : Char) (tl : List Char) (hc : ¬ c = ':') :
    skipIfaceBounds parse fuel (c :: tl) = some (c :: tl) := by
  cases fuel <;> simp [skipIfaceBounds, hc]

theorem skipIfaceBounds_colon (parse : List Char → Option (TypeStr × List Char))
    (f : Nat) (rest : List Char) :
    skipIfaceBounds parse (f + 1) (':' :: rest) =
      (match rest with
       | [] => some []
       | c :: _ =>
         if c = ':' ∨ c = '>' then skipIfaceBounds parse f rest
         else
           match parse rest with
           | none => none
           | some (_, r2) => skipIfaceBounds parse f r2) := rfl

theorem mem_le_foldr_max : ∀ (l : List Nat), ∀ x ∈ l, x ≤ l.foldr max 0 := by
  intro l
  induction l with
  | nil => intro x hx; cases hx
  | cons a r ih =>
    intro x hx
    rcases List.mem_cons.mp hx with rfl | hx2
    · simp only [List.foldr]
      omega
    · have := ih x hx2
      simp only [List.foldr]
      omega

/-- Interface bounds rendered after a class bound are each parsed and
discarded by the `while sig[i] == ":"` loop of `parse_class_type_params`. -/
theorem skipIfaceBounds_render (F : Nat) :
    ∀ (ifaces : List JSig) (fuel : Nat) (tail : List Char),
      (∀ s ∈ ifaces, wfSig s = true) →
      (∀ s ∈ ifaces, fuelS s ≤ F) →
      ifaces.length ≤ fuel →
      (∀ c tl, tail = c :: tl → ¬ c = ':') →
      skipIfaceBounds (fun cs => parseTypeSig F [] false false false cs) fuel
        ((ifaces.map (fun s => ':' :: renderS s)).flatten ++ tail) = some tail := by
  intro ifaces
  induction ifaces with
  | nil =>
    intro fuel tail _ _ _ htail
    simp only [List.map_nil, List.flatten_nil, List.nil_append]
    cases tail with
    | nil => exact skipIfaceBounds_nil _ fuel
    | cons c tl => exact skipIfaceBounds_stop _ fuel c tl (htail c tl rfl)
  | cons b rest ih =>
    intro fuel tail hwf hfs hlen htail
    cases fuel with
    | zero => simp at hlen
    | succ f =>
      have hwfb : wfSig b = true := hwf b (List.mem_cons_self _ _)
      obtain ⟨c0, r0, hr, hne1, hne2, hne3, hne4, hne5⟩ := renderS_head hwfb
      simp only [List.map_cons, List.flatten_cons, List.cons_append,
        List.append_assoc]
      rw [skipIfaceBounds_colon]
      rw [hr, List.cons_append]
      simp only []
      rw [if_neg (not_or.mpr ⟨hne5, hne2⟩)]
      rw [show c0 :: (r0 ++ ((rest.map (fun s => ':' :: renderS s)).flatten ++ tail)) =
        renderS b ++ ((rest.map (fun s => ':' :: renderS s)).flatten ++ tail) from by
          rw [hr]; simp]
      rw [parseTypeSig_renderS b hwfb F (hfs b (List.mem_cons_self _ _)) false false]
      simp only []
      exact ih f tail (fun s hs => hwf s (List.mem_cons_of_mem _ hs))
        (fun s hs => hfs s (List.mem_cons_of_mem _ hs)) (by simpa using hlen) htail

theorem parseParamsLoop_gt (parse : List Char → Option (TypeStr × List Char))
    (fuel : Nat) (tail : List Char) (acc : List (String × Option TypeStr)) :
    parseParamsLoop parse fuel ('>' :: tail) acc = some (acc.reverse, tail) := by
  cases fuel <;> simp [parseParamsLoop]

/-- A class- or method-scoped type-parameter entry, described abstractly:
its name, an optional class bound and the interface bounds, each bound an
arbitrary reference-type signature of the grammar. -/
structure TypeParamEntry where
  name : String
  classBound : Option JSig := none
  ifaceBounds : List JSig := []

/-- Render one prelude entry `Name:ClassBound(:InterfaceBound)*`. -/
def renderTypeParamEntry (e : TypeParamEntry) : List Char :=
  e.name.data ++ ':' ::
    ((match e.classBound with | some s => renderS s | none => []) ++
     (e.ifaceBounds.map (fun s => ':' :: renderS s)).flatten)

/-- Render a full `<...>` type-parameter prelude. -/
def renderTypeParamsPrelude (es : List TypeParamEntry) : String :=
  String.mk ('<' :: ((es.map renderTypeParamEntry).flatten ++ ['>']))

/-- Well-formedness of an abstract prelude entry: a non-empty name without
`:`/`>`, at least one bound (`javac` emits `Ljava/lang/Object;` for an
unbounded variable), and bounds drawn from the signature grammar. -/
def typeParamEntryWF (e : TypeParamEntry) : Prop :=
  e.name ≠ "" ∧ (∀ ch ∈ e.name.data, ch ≠ ':' ∧ ch ≠ '>') ∧
  (e.classBound.isSome ∨ e.ifaceBounds ≠ []) ∧
  (match e.classBound with | some s => wfSig s = true | none => True) ∧
  (∀ s ∈ e.ifaceBounds, wfSig s = true)

/-- The upper bound the parser assigns from a class bound, per the code:
its translation, filtered against `java.lang.Object`/`None`. -/
def expectedBoundFor (s : JSig) : Option TypeStr :=
  if (denoteS s false false).name = "java.lang.Object" ∨
     (denoteS s false false).name = "None" then none
  else some (denoteS s false false)

/-- The `(java_name, bound)` pair the parser produces for one entry. -/
def expectedTypeParam (e : TypeParamEntry) : String × Option TypeStr :=
  (e.name, e.classBound.bind expectedBoundFor)

/-- Loop fuel sufficient for `parseParamsLoop` on a rendered prelude. -/
def entryLoopNeed : List TypeParamEntry → Nat
  | [] => 0
  | e :: rest => 1 + max e.ifaceBounds.length (entryLoopNeed rest)

/-- Parser fuel needed by the bounds of one entry. -/
def boundFuels (e : TypeParamEntry) : Nat :=
  max (match e.classBound with | some s => fuelS s | none => 0)
      ((e.ifaceBounds.map fuelS).foldr max 0)

/-- Parser fuel needed by all bounds of a prelude. -/
def entryBoundsNeed : List TypeParamEntry → Nat
  | [] => 0
  | e :: rest => max (boundFuels e) (entryBoundsNeed rest)

theorem name_data_ne_nil {e : TypeParamEntry} (hwf : typeParamEntryWF e) :
    e.name.data ≠ [] := by
  intro h
  have h2 : e.name = String.mk e.name.data := rfl
  rw [h] at h2
  exact hwf.1 h2

theorem renderEntries_head_not_colon (rest : List TypeParamEntry) (tail : List Char)
    (hwf : ∀ e ∈ rest, typeParamEntryWF e) :
    ∀ c tl, (rest.map renderTypeParamEntry).flatten ++ '>' :: tail = c :: tl →
      ¬ c = ':' := by
  intro c tl h hc
  subst hc
  cases rest with
  | nil =>
    simp only [List.map_nil, List.flatten_nil, List.nil_append] at h
    have := (List.cons.injEq _ _ _ _).mp h
    exact absurd this.1.symm (by decide)
  | cons e2 rest2 =>
    have hwf2 := hwf e2 (List.mem_cons_self _ _)
    simp only [List.map_cons, List.flatten_cons, renderTypeParamEntry,
      List.cons_append, List.append_assoc] at h
    cases hn2 : e2.name.data with
    | nil => exact absurd hn2 (name_data_ne_nil hwf2)
    | cons c2 r2 =>
      rw [hn2, List.cons_append] at h
      have hinj := (List.cons.injEq _ _ _ _).mp h
      have hc2 : c2 ∈ e2.name.data := by rw [hn2]; exact List.mem_cons_self _ _
      exact absurd hinj.1 (hwf2.2.1 c2 hc2).1

theorem parseParamsLoop_render (F : Nat) :
    ∀ (es : List TypeParamEntry) (fuel : Nat) (tail : List Char)
      (acc : List (String × Option TypeStr)),
      (∀ e ∈ es, typeParamEntryWF e) →
      entryLoopNeed es ≤ fuel →
      entryBoundsNeed es ≤ F →
      parseParamsLoop (fun cs => parseTypeSig F [] false false false cs) fuel
        ((es.map renderTypeParamEntry).flatten ++ '>' :: tail) acc =
      some (acc.reverse ++ es.map expectedTypeParam, tail) := by
  intro es
  induction es with
  | nil =>
    intro fuel tail acc _ _ _
    simp only [List.map_nil, List.flatten_nil, List.nil_append]
    rw [parseParamsLoop_gt]
    simp
  | cons e rest ih =>
    intro fuel tail acc hwf hfuel hB
    have hwfe := hwf e (List.mem_cons_self _ _)
    have hwfrest : ∀ e2 ∈ rest, typeParamEntryWF e2 :=
      fun e2 h2 => hwf e2 (List.mem_cons_of_mem _ h2)
    have hBe : boundFuels e ≤ F := by simp only [entryBoundsNeed] at hB; omega
    have hBrest : entryBoundsNeed rest ≤ F := by
      simp only [entryBoundsNeed] at hB; omega
    have hifF : ∀ s ∈ e.ifaceBounds, fuelS s ≤ F := by
      intro s hs
      have h1 := mem_le_foldr_max (e.ifaceBounds.map fuelS) (fuelS s)
        (List.mem_map_of_mem _ hs)
      simp only [boundFuels] at hBe
      omega
    cases fuel with
    | zero => exact absurd hfuel (by simp [entryLoopNeed])
    | succ f =>
      have hflen : e.ifaceBounds.length ≤ f := by
        simp [entryLoopNeed] at hfuel
        omega
      have hfrest : entryLoopNeed rest ≤ f := by
        simp [entryLoopNeed] at hfuel
        omega
      have hrender : ((e :: rest).map renderTypeParamEntry).flatten ++ '>' :: tail =
          e.name.data ++ ':' ::
            ((match e.classBound with | some s => renderS s | none => []) ++
             ((e.ifaceBounds.map (fun s => ':' :: renderS s)).flatten ++
              ((rest.map renderTypeParamEntry).flatten ++ '>' :: tail))) := by
        simp only [List.map_cons, List.flatten_cons, renderTypeParamEntry,
          List.cons_append, List.append_assoc]
      rw [hrender]
      cases hn : e.name.data with
      | nil => exact absurd hn (name_data_ne_nil hwfe)
      | cons nc nrest =>
        have hnamechars : ∀ ch ∈ nc :: nrest, ch ≠ ':' ∧ ch ≠ '>' := by
          rw [← hn]; exact hwfe.2.1
        have hncgt : ¬ nc = '>' := (hnamechars nc (List.mem_cons_self _ _)).2
        simp only [List.cons_append]
        simp only [parseParamsLoop, if_neg hncgt]
        rw [show nc :: (nrest ++ ':' ::
            ((match e.classBound with | some s => renderS s | none => []) ++
             ((e.ifaceBounds.map (fun s => ':' :: renderS s)).flatten ++
              ((rest.map renderTypeParamEntry).flatten ++ '>' :: tail)))) =
          (nc :: nrest) ++ ':' ::
            ((match e.classBound with | some s => renderS s | none => []) ++
             ((e.ifaceBounds.map (fun s => ':' :: renderS s)).flatten ++
              ((rest.map renderTypeParamEntry).flatten ++ '>' :: tail))) from by
          simp [List.cons_append]]
        rw [takeUntil_append (fun ch => ch = ':') (nc :: nrest) _
          (by
            intro ch hch
            simp [(hnamechars ch hch).1])
          (by simp)]
        simp only []
        cases hcb : e.classBound with
        | some s =>
          have hwfS : wfSig s = true := by
            have hm := hwfe.2.2.2.1
            rw [hcb] at hm
            exact hm
          have hFs : fuelS s ≤ F := by
            simp only [boundFuels, hcb] at hBe
            omega
          simp only []
          obtain ⟨c0, r0, hr, hne1, hne2, hne3, hne4, hne5⟩ := renderS_head hwfS
          rw [hr, List.cons_append]
          simp only []
          rw [if_neg (not_or.mpr ⟨hne5, hne2⟩)]
          rw [show c0 :: (r0 ++
              ((e.ifaceBounds.map (fun s2 => ':' :: renderS s2)).flatten ++
               ((rest.map renderTypeParamEntry).flatten ++ '>' :: tail))) =
            renderS s ++
              ((e.ifaceBounds.map (fun s2 => ':' :: renderS s2)).flatten ++
               ((rest.map renderTypeParamEntry).flatten ++ '>' :: tail)) from by
            rw [hr]; simp]
          rw [parseTypeSig_renderS s hwfS F hFs false false]
          simp only []
          rw [skipIfaceBounds_render F e.ifaceBounds f
            ((rest.map renderTypeParamEntry).flatten ++ '>' :: tail)
            hwfe.2.2.2.2 hifF hflen
            (renderEntries_head_not_colon rest tail hwfrest)]
          simp only []
          rw [ih f tail _ hwfrest hfrest hBrest]
          simp only [List.reverse_cons, List.append_assoc, List.map_cons,
            List.singleton_append, Option.some.injEq, Prod.mk.injEq]
          constructor
          · congr 1
            rw [show String.mk (nc :: nrest) = e.name from by rw [← hn]]
            rw [show expectedTypeParam e = (e.name, expectedBoundFor s) from by
              simp [expectedTypeParam, hcb]]
            rw [show expectedBoundFor s =
              (if (denoteS s false false).name = "java.lang.Object" ∨
                  (denoteS s false false).name = "None" then none
               else some (denoteS s false false)) from rfl]
          · trivial
        | none =>
          cases hif : e.ifaceBounds with
          | nil =>
            rcases hwfe.2.2.1 with hs | hs
            · rw [hcb] at hs; simp at hs
            · exact absurd hif hs
          | cons b0 brest =>
            simp only []
            simp only [List.nil_append, List.map_cons, List.flatten_cons,
              List.cons_append, List.append_assoc]
            simp only [true_or, if_true]
            have hifF2 : ∀ s ∈ b0 :: brest, fuelS s ≤ F := by rw [← hif]; exact hifF
            have hskip := skipIfaceBounds_render F (b0 :: brest) f
              ((rest.map renderTypeParamEntry).flatten ++ '>' :: tail)
              (by rw [← hif]; exact hwfe.2.2.2.2)
              hifF2
              (by rw [← hif]; exact hflen)
              (renderEntries_head_not_colon rest tail hwfrest)
            simp only [List.map_cons, List.flatten_cons, List.cons_append,
              List.append_assoc] at hskip
            rw [hskip]
            simp only []
            rw [ih f tail _ hwfrest hfrest hBrest]
            simp only [List.reverse_cons, List.append_assoc, List.map_cons,
              List.singleton_append, Option.some.injEq, Prod.mk.injEq]
            constructor
            · congr 1
              rw [show String.mk (nc :: nrest) = e.name from by rw [← hn]]
              rw [show expectedTypeParam e = (e.name, none) from by
                simp [expectedTypeParam, hcb]]
            · trivial

/-- C5 (amended). For every rendered type-parameter prelude over
well-formed entries — names from the JVM identifier charset, at least one
bound per entry, bounds ranging over the full reference-type-signature
grammar (generic class types with nested type arguments and wildcards,
inner-class suffixes, type variables, arrays, primitives) — the parser
yields for each entry its name together with the translated *class* bound,
filtered to `None` when the class bound is absent or translates to
`java.lang.Object`/`None`; the interface bounds are consumed but never
appear in the output. -/
theorem c5_class_bound_only (es : List TypeParamEntry) (fuel : Nat)
    (hwf : ∀ e ∈ es, typeParamEntryWF e)
    (hloop : entryLoopNeed es + 1 ≤ fuel)
    (hbounds : entryBoundsNeed es ≤ fuel) :
    parseClassTypeParams fuel (renderTypeParamsPrelude es) =
      some (es.map expectedTypeParam, []) := by
  unfold parseClassTypeParams
  rw [show (renderTypeParamsPrelude es).data =
    '<' :: ((es.map renderTypeParamEntry).flatten ++ ['>']) from rfl]
  simp only []
  rw [show ((es.map renderTypeParamEntry).flatten ++ ['>'] : List Char) =
    (es.map renderTypeParamEntry).flatten ++ '>' :: [] from rfl]
  rw [parseParamsLoop_render fuel es fuel [] [] hwf (by omega) hbounds]
  simp

/-- C5 counterexample. For the prelude `<T::Ljava/lang/Comparable;>` — whose
only (and hence first) non-Object bound is the interface bound
`java.lang.Comparable` — the parser produces the bound `None`, not
`java.lang.Comparable` as the claim predicts. -/
theorem c5_interface_bound_counterexample :
    (parseClassTypeParams 32 "<T::Ljava/lang/Comparable;>").map (fun r => r.1) =
      some [("T", (none : Option TypeStr))] ∧
    (parseClassTypeParams 32 "<T::Ljava/lang/Comparable;>").map (fun r => r.1) ≠
      some [("T", some (TypeStr.mk "java.lang.Comparable" none))] := by
  constructor
  · rfl
  · intro h
    rw [show (parseClassTypeParams 32 "<T::Ljava/lang/Comparable;>").map
      (fun r => r.1) = some [("T", (none : Option TypeStr))] from rfl] at h
    simp at h

/-- Entry for the amended C5's witness: `K` with the generic class bound
`Ljava/lang/Enum<TK;>;` and the interface bound `Ljava/lang/Comparable;`,
rendering to `<K:Ljava/lang/Enum<TK;>;:Ljava/lang/Comparable;>`. -/
def demoEnumEntry : TypeParamEntry :=
  TypeParamEntry.mk "K"
    (some (JSig.clsA "java/lang/Enum" (JSig.acons (JSig.tvar "K") JSig.anil)
      JSig.inil))
    [JSig.cls0 "java/lang/Comparable" JSig.inil]

/-- Witness for the amended C5 at a concrete entry with a generic class
bound and an interface bound: the bound becomes `java.lang.Enum[K]` and
the interface bound is discarded. -/
theorem c5_class_bound_only_witness :
    parseClassTypeParams 8 (renderTypeParamsPrelude [demoEnumEntry]) =
      some ([("K", some (TypeStr.mk "java.lang.Enum"
        (some [TypeStr.mk "K" none])))], []) :=
  (c5_class_bound_only [demoEnumEntry] 8
    (by
      intro e he
      rw [List.mem_singleton.mp he]
      refine ⟨by decide, by decide, Or.inl rfl, ?_, ?_⟩
      · exact (by decide : wfSig (JSig.clsA "java/lang/Enum"
          (JSig.acons (JSig.tvar "K") JSig.anil) JSig.inil) = true)
      intro s hs
      rw [show s = JSig.cls0 "java/lang/Comparable" JSig.inil from by
        simpa [demoEnumEntry] using hs]
      decide)
    (by decide) (by decide)).trans rfl
